import Mathlib

/-!
Shallow embedding of the core of bolero-samba (a Rust auditor of dated
archive bundles) and proofs about it.

Modelling conventions, used throughout:
* `u64`/`usize`/`u32` values are `Nat`; `i32` years only ever hold the
  `0..9999` range produced by the date parser, so they are `Nat` too.
* `f64` arithmetic is modelled exactly over `ℚ` (all values involved are
  ratios of machine integers; `f64::midpoint (a, b)` is `(a + b) / 2`,
  the literal `1.2` is `6/5`); `f64::sqrt` has no exact rational
  counterpart and is passed in as an abstract function parameter.
* `chrono::NaiveDate` is a year/month/day record; its day-number view
  (`toRD`, days since 0000-01-01 in the proleptic Gregorian calendar)
  gives ordering, weekday and day-stepping, exactly as chrono does
  internally.  `Weekday::number_from_monday` is Monday = 1 .. Sunday = 7.
* `HashMap`/`HashSet` are modelled extensionally: a per-key counter built
  by one pass is the count of matching list entries, a set is membership
  in a list, `collect()` into a map keeps the last entry per key, and
  set-iteration order (unspecified in Rust) is fixed as first-appearance
  order.
* Rust `Vec::sort_by` (a stable comparison sort) is `List.insertionSort`.
* Filesystem effects are explicit data: a file handed to the validity
  checker carries its byte content plus flags saying which of the four
  syscalls (open, metadata, seek, read) succeed; the clock read
  `Local::now().date_naive()` inside `calculate_monthly_rankings` is an
  explicit `today` parameter; `Result::unwrap` on an error is an
  `Except.error` outcome.
-/

/-! ## Calendar model (chrono::NaiveDate) -/

/-- Proleptic Gregorian leap-year rule, as used by chrono. -/
def isLeapYear (y : Nat) : Bool :=
  (y % 4 == 0 && y % 100 != 0) || y % 400 == 0

/-- Length of month `m` (1..12) in year `y`. -/
def daysInMonth (y m : Nat) : Nat :=
  if m == 2 then (if isLeapYear y then 29 else 28)
  else if m == 4 || m == 6 || m == 9 || m == 11 then 30
  else 31

/-- Days from 0000-01-01 to the first day of year `y` (year 0 is a leap
year in the proleptic Gregorian calendar). -/
def daysBeforeYear (y : Nat) : Nat :=
  365 * y + (y + 3) / 4 - (y + 99) / 100 + (y + 399) / 400

/-- Days of year `y` that precede the first day of month `m`. -/
def daysBeforeMonth (y m : Nat) : Nat :=
  ∑ i in Finset.range (m - 1), daysInMonth y (i + 1)

/-- `chrono::NaiveDate`: a calendar date. -/
structure NaiveDate where
  year : Nat
  month : Nat
  day : Nat
deriving DecidableEq

/-- A date that denotes a real calendar day. Every date the embedding
produces (the parser, day stepping) satisfies this. -/
def NaiveDate.Valid (dt : NaiveDate) : Prop :=
  1 ≤ dt.month ∧ dt.month ≤ 12 ∧ 1 ≤ dt.day ∧ dt.day ≤ daysInMonth dt.year dt.month

instance : DecidablePred NaiveDate.Valid := fun dt => by
  unfold NaiveDate.Valid; infer_instance

/-- Day number of a date: days since 0000-01-01. Ordering, weekday and
`succ` of `NaiveDate` are all inherited from this view. -/
def NaiveDate.toRD (dt : NaiveDate) : Nat :=
  daysBeforeYear dt.year + daysBeforeMonth dt.year dt.month + (dt.day - 1)

/-- `Weekday::number_from_monday` of the day with day number `rd`
(Monday = 1 .. Sunday = 7); 0000-01-01 was a Saturday. -/
def weekdayFromMonday (rd : Nat) : Nat :=
  (rd + 5) % 7 + 1

/-- `NaiveDate::succ_opt`: the next calendar day (total here: the walks
below never leave the parser's year range, where `succ_opt` is `Some`). -/
def NaiveDate.succ (dt : NaiveDate) : NaiveDate :=
  if dt.day < daysInMonth dt.year dt.month then ⟨dt.year, dt.month, dt.day + 1⟩
  else if dt.month < 12 then ⟨dt.year, dt.month + 1, 1⟩
  else ⟨dt.year + 1, 1, 1⟩

/-- `≤` on dates (chronological; chrono compares dates the same way). -/
def dateLe (a b : NaiveDate) : Prop := a.toRD ≤ b.toRD

instance : DecidableRel dateLe := fun a b => by unfold dateLe; infer_instance

/-- The digit value of an ASCII digit character. -/
def charDigit (c : Char) : Option Nat :=
  if c.isDigit then some (c.toNat - 48) else none

/-- `NaiveDate::parse_from_str (s, "%Y-%m-%d")` on a 10-character slice, in
its canonical fixed-width form `YYYY-MM-DD`: four digits, dash, two digits,
dash, two digits, and the triple must denote a real calendar day. -/
def parseYMD : List Char → Option NaiveDate
  | [y1, y2, y3, y4, s1, m1, m2, s2, d1, d2] =>
    match charDigit y1, charDigit y2, charDigit y3, charDigit y4,
          charDigit m1, charDigit m2, charDigit d1, charDigit d2 with
    | some a, some b, some c, some d, some e, some f, some g, some h =>
      if s1 = '-' && s2 = '-' then
        let y := ((a * 10 + b) * 10 + c) * 10 + d
        let mo := e * 10 + f
        let dy := g * 10 + h
        if 1 ≤ mo && mo ≤ 12 && 1 ≤ dy && dy ≤ daysInMonth y mo then
          some ⟨y, mo, dy⟩
        else none
      else none
    | _, _, _, _, _, _, _, _ => none
  | _ => none

/-- `ranking::extract_date_from_dir`, also the inline date extraction of
`gap_analysis::find_gaps`: the directory name must start with
`Archive_Beam_<line>_` and the following 10 characters must parse as
`%Y-%m-%d`. Rust slices bytes; names are matched here character-wise,
which agrees on the ASCII names the format prescribes. -/
def extract_date_from_dir (parent_dir line_id : String) : Option NaiveDate :=
  let pat := ("Archive_Beam_" ++ line_id ++ "_").toList
  let cs := parent_dir.toList
  if pat.isPrefixOf cs then
    let rest := cs.drop pat.length
    if 10 ≤ rest.length then parseYMD (rest.take 10) else none
  else none

/-! ## Data model (types.rs) -/

/-- `types::FileEntry`: one scanned file. `modified` is a timestamp the
claims never consult; it is kept as an integer. -/
structure FileEntry where
  name : String
  size : Nat
  is_valid : Bool
  invalid_reason : Option String
  modified : Int
  parent_dir : String
deriving DecidableEq

/-! ## Structural validity checker (scanner.rs, is_zip_valid) -/

/-- One file as the validity checker sees it: its bytes plus which of the
four filesystem operations (`File::open`, `metadata`, `seek`, `read`)
succeed on it. -/
structure ZipFile where
  openOk : Bool
  metaOk : Bool
  seekOk : Bool
  readOk : Bool
  content : List Nat
deriving DecidableEq

/-- Does the 4-byte EOCD signature `0x50 0x4B 0x05 0x06` start at index
`i` of `buffer`? -/
def sigAt (buffer : List Nat) (i : Nat) : Bool :=
  match buffer.drop i with
  | 0x50 :: 0x4b :: 0x05 :: 0x06 :: _ => true
  | _ => false

/-- The backward scan of `is_zip_valid`: try indices `i, i-1, ..., 0`. -/
def sigSearchFrom (buffer : List Nat) : Nat → Bool
  | 0 => sigAt buffer 0
  | i + 1 => if sigAt buffer (i + 1) then true else sigSearchFrom buffer i

/-- `for i in (0..len.saturating_sub(3)).rev()`: scan start indices from
`len - 4` down to `0`; an empty range finds nothing. -/
def hasEocdSignature (buffer : List Nat) : Bool :=
  if 4 ≤ buffer.length then sigSearchFrom buffer (buffer.length - 4) else false

/-- `scanner::is_zip_valid`: `(is_valid, invalid_reason)` for one file. -/
def is_zip_valid (f : ZipFile) : Bool × Option String :=
  if !f.openOk then (false, some ("Cannot open file"))
  else if !f.metaOk then (false, some ("Cannot read file metadata"))
  else
    let len := f.content.length
    if len < 22 then
      (false, some ("File too small (" ++ toString len ++ " bytes, minimum 22 bytes required)"))
    else
      let search_len := min len (65535 + 22)
      if !f.seekOk then (false, some ("Cannot seek to end of file"))
      else if !f.readOk then (false, some ("Cannot read file contents"))
      else
        let buffer := f.content.drop (len - search_len)
        if hasEocdSignature buffer then (true, none)
        else (false, some ("Missing ZIP signature (corrupted or incomplete transfer)"))

/-! ## Scan metadata access (scanner.rs, scan_files)

`scan_files` runs, for each enumerated file,
`entry.metadata().unwrap_or_else(|_| std::fs::metadata(p).unwrap())`:
if the walk entry's cached metadata fails it falls back to a direct
`fs::metadata` call, and `unwrap`s that — a panic when the fallback also
fails. One entry of a scan is modelled by the outcomes of those two
metadata reads; `Except.error` is the panic that unwinds the scan. -/

/-- One file met during the walk: the two metadata-read outcomes (each
carrying the size on success) and its name. -/
structure ScanEntry where
  entryMeta : Option Nat
  fsMeta : Option Nat
  name : String
deriving DecidableEq

/-- The metadata step of `scan_files` for one entry. -/
def scan_entry_size (e : ScanEntry) : Except String Nat :=
  match e.entryMeta with
  | some m => Except.ok m
  | none =>
    match e.fsMeta with
    | some m => Except.ok m
    | none => Except.error ("panicked at Result::unwrap on an Err value in scan_files")

/-- The metadata pass of `scan_files` over the enumerated entries: the
first panicking entry aborts the whole scan. -/
def scan_files_sizes : List ScanEntry → Except String (List Nat)
  | [] => Except.ok []
  | e :: rest =>
    match scan_entry_size e with
    | Except.ok n =>
      match scan_files_sizes rest with
      | Except.ok ns => Except.ok (n :: ns)
      | Except.error s => Except.error s
    | Except.error s => Except.error s

/-! ## Gap analysis (gap_analysis.rs) -/

/-- `gap_analysis::GapReport`. -/
structure GapReport where
  start_date : NaiveDate
  end_date : NaiveDate
  missing_weekdays : List NaiveDate
  skipped_weekends : Nat
  is_empty : Bool
deriving DecidableEq

/-- The dates `find_gaps` extracts from the records, in input order. -/
def extractDates (files : List FileEntry) (line_id : String) : List NaiveDate :=
  files.filterMap (fun f => extract_date_from_dir f.parent_dir line_id)

/-- `Vec::dedup` on a sorted vector: drop an element equal to its
successor (on a sorted list this removes every duplicate). -/
def dedupSorted : List NaiveDate → List NaiveDate
  | [] => []
  | [a] => [a]
  | a :: b :: rest => if a = b then dedupSorted (b :: rest) else a :: dedupSorted (b :: rest)

/-- The day-walk of `find_gaps`: from `curr`, for `n` days (the code walks
`while curr < end`, so `n = end - start` in day numbers), classify each
day absent from `existing` as a missing weekday or a skipped weekend. -/
def gapWalk (existing : List NaiveDate) : NaiveDate → Nat → List NaiveDate × Nat
  | _, 0 => ([], 0)
  | curr, n + 1 =>
    let rest := gapWalk existing curr.succ n
    if curr ∈ existing then rest
    else if weekdayFromMonday curr.toRD ≤ 5 then (curr :: rest.1, rest.2)
    else (rest.1, rest.2 + 1)

/-- `gap_analysis::find_gaps`. `NaiveDate::default()` is 1970-01-01. -/
def find_gaps (files : List FileEntry) (line_id : String) : GapReport :=
  let dates := dedupSorted (List.insertionSort dateLe (extractDates files line_id))
  match dates with
  | [] =>
    { start_date := ⟨1970, 1, 1⟩, end_date := ⟨1970, 1, 1⟩,
      missing_weekdays := [], skipped_weekends := 0, is_empty := true }
  | a :: rest =>
    let last := (a :: rest).getLast (List.cons_ne_nil a rest)
    let w := gapWalk (a :: rest) a (last.toRD - a.toRD)
    { start_date := a, end_date := last,
      missing_weekdays := w.1, skipped_weekends := w.2, is_empty := false }

/-! ## Integrity statistics (stats.rs) -/

/-- `stats::IntegrityRow`. `min_size`, `max_size`, `median_size` are the
`as u64` casts the code stores (truncation toward zero of a nonnegative
`f64`); `std_dev` stays a number. -/
structure IntegrityRow where
  name : String
  total : Nat
  empty : Nat
  bad : Nat
  min_size : Nat
  max_size : Nat
  median_size : Nat
  std_dev : ℚ
  valid_stats : Bool
deriving DecidableEq

/-- `stats::IntegrityStats`. -/
structure IntegrityStats where
  rows : List IntegrityRow
  grand_total : Nat
  grand_empty : Nat
  grand_bad : Nat
  grand_min : Nat
  grand_max : Nat
  grand_median : Nat
  grand_std_dev : ℚ
deriving DecidableEq

/-- The `as u64` cast of a nonnegative `f64`: truncation (a negative
value saturates to 0, which `Int.toNat` also does). -/
def f64ToU64 (q : ℚ) : Nat := (⌊q⌋).toNat

/-- `u64::MAX`, the initial value of `grand_min`. -/
def u64MAX : Nat := 18446744073709551615

/-- Byte-lexicographic order on strings, as Rust's `Ord for String`
compares them (on ASCII names bytes and scalar values agree). -/
def charsLe : List Char → List Char → Bool
  | [], _ => true
  | _ :: _, [] => false
  | a :: as_, b :: bs =>
    if a.toNat < b.toNat then true
    else if b.toNat < a.toNat then false
    else charsLe as_ bs

/-- The `Prop` form of `charsLe` on strings, for sorting. -/
def strLe (a b : String) : Prop := charsLe a.toList b.toList = true

instance : DecidableRel strLe := fun a b => by unfold strLe; infer_instance

/-- The group of a filename: `groups` entry of `calculate_integrity_stats`
(`HashMap` pushes preserve input order). -/
def groupOf (files : List FileEntry) (name : String) : List FileEntry :=
  files.filter (fun f => f.name == name)

/-- `sorted_keys`: the distinct filenames, sorted ascending. -/
def sortedNames (files : List FileEntry) : List String :=
  List.insertionSort strLe (files.map (fun f => f.name)).dedup

/-- Sizes of a group at or above the threshold, as `f64`s, sorted
ascending — the `sizes` vector of the per-group loop. -/
def sortedSizes (entries : List FileEntry) (t : Nat) : List ℚ :=
  List.insertionSort (· ≤ ·)
    ((entries.filter (fun e => t ≤ e.size)).map (fun e => (e.size : ℚ)))

/-- The median the per-group loop computes from an ascending `sizes`
vector: middle element for an odd count, `f64::midpoint` of the two
central elements for an even count. (Indices are in range whenever the
code runs this, so the `getD` defaults are never hit.) -/
def medianOfSorted (s : List ℚ) : ℚ :=
  let count := s.length
  if count % 2 = 1 then s.getD (count / 2) 0
  else (s.getD (count / 2 - 1) 0 + s.getD (count / 2) 0) / 2

/-- Mean of an ascending sizes vector. -/
def meanOfSizes (s : List ℚ) : ℚ := s.sum / s.length

/-- Population variance of the sizes vector as the loop computes it. -/
def varianceOfSizes (s : List ℚ) : ℚ :=
  (s.map (fun x => (x - meanOfSizes s) ^ 2)).sum / s.length

/-- The `IntegrityRow` of one filename group. `sqrtFn` stands for
`f64::sqrt`. -/
def rowOf (files : List FileEntry) (t : Nat) (sqrtFn : ℚ → ℚ) (name : String) : IntegrityRow :=
  let entries := groupOf files name
  let total := entries.length
  let empty := (entries.filter (fun e => e.size < t)).length
  let bad := (entries.filter (fun e => !e.is_valid)).length
  let sizes := sortedSizes entries t
  if sizes.isEmpty then
    ⟨name, total, empty, bad, 0, 0, 0, 0, false⟩
  else
    ⟨name, total, empty, bad,
      f64ToU64 (sizes.headD 0), f64ToU64 (sizes.getLastD 0),
      f64ToU64 (medianOfSorted sizes), sqrtFn (varianceOfSizes sizes), true⟩

/-- The running state of the per-group loop of
`calculate_integrity_stats`. -/
structure StatsAcc where
  rows : List IntegrityRow
  grand_total : Nat
  grand_empty : Nat
  grand_bad : Nat
  grand_min : Nat
  grand_max : Nat
  all_medians : List ℚ
  all_stddevs : List ℚ
  valid_groups : Nat
deriving DecidableEq

/-- One iteration of the per-group loop. -/
def statsStep (files : List FileEntry) (t : Nat) (sqrtFn : ℚ → ℚ)
    (acc : StatsAcc) (name : String) : StatsAcc :=
  let entries := groupOf files name
  let sizes := sortedSizes entries t
  let acc1 : StatsAcc :=
    { acc with
      grand_total := acc.grand_total + entries.length
      grand_empty := acc.grand_empty + (entries.filter (fun e => e.size < t)).length
      grand_bad := acc.grand_bad + (entries.filter (fun e => !e.is_valid)).length }
  if sizes.isEmpty then
    { acc1 with rows := acc1.rows ++ [rowOf files t sqrtFn name] }
  else
    { acc1 with
      rows := acc1.rows ++ [rowOf files t sqrtFn name]
      grand_min :=
        if sizes.headD 0 < (acc1.grand_min : ℚ) then f64ToU64 (sizes.headD 0)
        else acc1.grand_min
      grand_max :=
        if (acc1.grand_max : ℚ) < sizes.getLastD 0 then f64ToU64 (sizes.getLastD 0)
        else acc1.grand_max
      all_medians := acc1.all_medians ++ [medianOfSorted sizes]
      all_stddevs := acc1.all_stddevs ++ [sqrtFn (varianceOfSizes sizes)]
      valid_groups := acc1.valid_groups + 1 }

/-- `stats::calculate_integrity_stats`. `sqrtFn` models `f64::sqrt`;
every statement proved below holds for an arbitrary such function. -/
def calculate_integrity_stats (files : List FileEntry) (t : Nat)
    (sqrtFn : ℚ → ℚ) : Option IntegrityStats :=
  if files.isEmpty then none
  else
    let acc := (sortedNames files).foldl (statsStep files t sqrtFn)
      ⟨[], 0, 0, 0, u64MAX, 0, [], [], 0⟩
    let gmgsd : Nat × ℚ :=
      if 0 < acc.valid_groups then
        let sortedMed := List.insertionSort (· ≤ ·) acc.all_medians
        let sortedStd := List.insertionSort (· ≤ ·) acc.all_stddevs
        let gm :=
          if acc.valid_groups % 2 = 1 then sortedMed.getD (acc.valid_groups / 2) 0
          else (sortedMed.getD (acc.valid_groups / 2 - 1) 0
            + sortedMed.getD (acc.valid_groups / 2) 0) / 2
        let gsd :=
          if acc.valid_groups % 2 = 1 then sortedStd.getD (acc.valid_groups / 2) 0
          else (sortedStd.getD (acc.valid_groups / 2 - 1) 0
            + sortedStd.getD (acc.valid_groups / 2) 0) / 2
        (f64ToU64 gm, gsd)
      else (0, 0)
    some
      { rows := acc.rows
        grand_total := acc.grand_total
        grand_empty := acc.grand_empty
        grand_bad := acc.grand_bad
        grand_min := if acc.grand_min = u64MAX then 0 else acc.grand_min
        grand_max := acc.grand_max
        grand_median := gmgsd.1
        grand_std_dev := gmgsd.2 }

/-! ## Daily-size anomaly detector (stats.rs, calculate_anomalies) -/

/-- `stats::Anomaly`. -/
structure Anomaly where
  name : String
  size : Nat
  category : String
deriving DecidableEq

/-- `stats::AnomalyReport`. -/
structure AnomalyReport where
  median_daily_size : Nat
  anomalies : List Anomaly
deriving DecidableEq

/-- `stats::calculate_anomalies`. The day map is an association list with
one entry per day; `u64::midpoint` rounds the average down; the `f64`
literal `1.2` is the rational `6/5`. -/
def calculate_anomalies (dirs : List (String × Nat)) (threshold : ℚ) :
    Option AnomalyReport :=
  let sizes := dirs.map (fun p => p.2)
  if sizes.isEmpty then none
  else
    let sorted := List.insertionSort (· ≤ ·) sizes
    let count := sorted.length
    let median :=
      if count % 2 = 1 then sorted.getD (count / 2) 0
      else (sorted.getD (count / 2 - 1) 0 + sorted.getD (count / 2) 0) / 2
    let sorted_dirs := List.insertionSort (fun a b => strLe a.1 b.1) dirs
    let anomalies := sorted_dirs.filterMap (fun p =>
      if (p.2 : ℚ) < (median : ℚ) * threshold then
        some ⟨p.1, p.2, "Too Small"⟩
      else if (median : ℚ) * (6 / 5) < (p.2 : ℚ) then
        some ⟨p.1, p.2, "Too Large"⟩
      else none)
    some ⟨median, anomalies⟩

/-! ## Monthly health scorer (ranking.rs) -/

/-- `ranking::MonthlyMetrics`. -/
structure MonthlyMetrics where
  year : Nat
  month : Nat
  missing_days : Nat
  anomaly_count : Nat
  invalid_files : Nat
  empty_files : Nat
  expected_weekdays : Nat
  actual_archives : Nat
  health_score : ℚ
  is_complete : Bool
deriving DecidableEq

/-- `ranking::MonthlyRankingReport`. -/
structure MonthlyRankingReport where
  months : List MonthlyMetrics
  best_month : Option MonthlyMetrics
  worst_month : Option MonthlyMetrics
  average_score : ℚ
  line_id : String
deriving DecidableEq

/-- First day of month `(y, m)` as a day number. -/
def monthStartRD (y m : Nat) : Nat := (NaiveDate.mk y m 1).toRD

/-- Last day of month `(y, m)` as a day number: the code takes the first
day of the next month and steps back one day. -/
def monthEndRD (y m : Nat) : Nat :=
  (if m = 12 then (NaiveDate.mk (y + 1) 1 1).toRD else (NaiveDate.mk y (m + 1) 1).toRD) - 1

/-- The counting loop of `count_expected_weekdays_in_month`: weekdays
among the `n` consecutive days starting at day number `start`. -/
def countWeekdaysFrom (start : Nat) : Nat → Nat
  | 0 => 0
  | n + 1 => (if weekdayFromMonday start ≤ 5 then 1 else 0) + countWeekdaysFrom (start + 1) n

/-- `ranking::count_expected_weekdays_in_month`: Monday–Friday days of
month `(y, m)` clamped to `[range_start, min (range_end, today)]` (all
dates as day numbers). -/
def count_expected_weekdays_in_month (y m range_start range_end today : Nat) : Nat :=
  let effective_start := max (monthStartRD y m) range_start
  let effective_end := min (min (monthEndRD y m) range_end) today
  if effective_end < effective_start then 0
  else countWeekdaysFrom effective_start (effective_end + 1 - effective_start)

/-- Membership in the `find_always_empty_files` set: the per-name counter
pair `(total, empty)` filtered by `total == empty && total > 0`. -/
def find_always_empty_files (files : List FileEntry) (t : Nat) (name : String) : Bool :=
  let total := (files.filter (fun f => f.name == name)).length
  let empty := (files.filter (fun f => f.name == name && f.size < t)).length
  total == empty && 0 < total

/-- `ranking::calculate_health_score` over exact `f64` arithmetic. -/
def calculate_health_score (m : MonthlyMetrics) : ℚ :=
  if m.expected_weekdays = 0 then 0
  else
    let penalty : ℚ :=
      ((m.missing_days * 10 + m.invalid_files * 3 + m.anomaly_count * 2 + m.empty_files : Nat) : ℚ)
    let max_penalty : ℚ := ((m.expected_weekdays * 10 : Nat) : ℚ)
    let score := 100 * (1 - penalty / max_penalty)
    min (max score 0) 100

/-- The `monthly_files` entry of key `(y, m)`: the records whose parent
directory parses to a date in that month. -/
def filesInMonth (files : List FileEntry) (line_id : String) (y m : Nat) : List FileEntry :=
  files.filter (fun f =>
    match extract_date_from_dir f.parent_dir line_id with
    | some dt => dt.year == y && dt.month == m
    | none => false)

/-- `missing_by_month` lookup (0 when the month has no entry): dates of
the gap report's missing-weekday list falling in month `(y, m)`. -/
def missingDaysInMonth (gap : Option GapReport) (y m : Nat) : Nat :=
  match gap with
  | none => 0
  | some r => (r.missing_weekdays.filter (fun dt => dt.year == y && dt.month == m)).length

/-- `anomalies_by_month` lookup (0 when the month has no entry): anomalies
whose folder name carries a date in month `(y, m)`. -/
def anomaliesInMonth (anomaly : Option AnomalyReport) (line_id : String) (y m : Nat) : Nat :=
  match anomaly with
  | none => 0
  | some r =>
    (r.anomalies.filter (fun a =>
      match extract_date_from_dir a.name line_id with
      | some dt => dt.year == y && dt.month == m
      | none => false)).length

/-- `all_months`: keys of `monthly_files` extended with the keys of
`missing_by_month` (set iteration fixed as first-appearance order). -/
def allMonthKeys (files : List FileEntry) (line_id : String) (gap : Option GapReport) :
    List (Nat × Nat) :=
  ((files.filterMap (fun f =>
      (extract_date_from_dir f.parent_dir line_id).map (fun dt => (dt.year, dt.month))))
    ++ (match gap with
        | none => []
        | some r => r.missing_weekdays.map (fun dt => (dt.year, dt.month)))).dedup

/-- The body of the per-month `filter_map` of `calculate_monthly_rankings`:
`none` exactly for a month with no expected weekdays. -/
def monthMetrics (files : List FileEntry) (gap : Option GapReport)
    (anomaly : Option AnomalyReport) (line_id : String)
    (start_date end_date today t : Nat) (y m : Nat) : Option MonthlyMetrics :=
  let expected_weekdays := count_expected_weekdays_in_month y m start_date end_date today
  if expected_weekdays = 0 then none
  else
    let fim := filesInMonth files line_id y m
    let invalid_files := (fim.filter (fun f => !f.is_valid)).length
    let empty_files := (fim.filter (fun f =>
      f.size < t && !(find_always_empty_files files t f.name))).length
    let actual_archives :=
      ((fim.filterMap (fun f => extract_date_from_dir f.parent_dir line_id)).dedup).length
    let base : MonthlyMetrics :=
      { year := y, month := m
        missing_days := missingDaysInMonth gap y m
        anomaly_count := anomaliesInMonth anomaly line_id y m
        invalid_files := invalid_files
        empty_files := empty_files
        expected_weekdays := expected_weekdays
        actual_archives := actual_archives
        health_score := 0
        is_complete := monthEndRD y m < today }
    some { base with health_score := calculate_health_score base }

/-- Descending order by health score: `sort_by (b.health_score.partial_cmp
(a.health_score))` — total here, scores being rationals. -/
def scoreGe (a b : MonthlyMetrics) : Prop := b.health_score ≤ a.health_score

instance : DecidableRel scoreGe := fun a b => by unfold scoreGe; infer_instance

/-- `ranking::calculate_monthly_rankings`. The Rust function reads
`today` from the system clock (`Local::now().date_naive()`) at entry;
that clock read is surfaced as the explicit final parameter, a day
number. `start_date`/`end_date` are the configured range as day
numbers. -/
def calculate_monthly_rankings (files : List FileEntry) (gap : Option GapReport)
    (anomaly : Option AnomalyReport) (line_id : String)
    (start_date end_date t today : Nat) : MonthlyRankingReport :=
  let months0 := (allMonthKeys files line_id gap).filterMap (fun k =>
    monthMetrics files gap anomaly line_id start_date end_date today t k.1 k.2)
  let months := List.insertionSort scoreGe months0
  let complete := months.filter (fun m => m.is_complete)
  let bw : Option MonthlyMetrics × Option MonthlyMetrics :=
    if complete.isEmpty then (months.head?, months.getLast?)
    else (complete.head?, complete.getLast?)
  let average_score :=
    if months.isEmpty then 0 else (months.map (fun m => m.health_score)).sum / months.length
  { months := months, best_month := bw.1, worst_month := bw.2,
    average_score := average_score, line_id := line_id }

/-! ## Cross-line combiner (ranking.rs, combine_rankings) -/

/-- `ranking::CombinedMonthlyMetrics`. -/
structure CombinedMonthlyMetrics where
  year : Nat
  month : Nat
  line_a_score : Option ℚ
  line_b_score : Option ℚ
  combined_score : ℚ
  line_a_metrics : Option MonthlyMetrics
  line_b_metrics : Option MonthlyMetrics
deriving DecidableEq

/-- `ranking::CombinedRankingReport`. -/
structure CombinedRankingReport where
  months : List CombinedMonthlyMetrics
  best_month : Option CombinedMonthlyMetrics
  worst_month : Option CombinedMonthlyMetrics
  line_a_average : ℚ
  line_b_average : ℚ
  combined_average : ℚ
deriving DecidableEq

/-- Lookup in the per-line `HashMap` keyed by `(year, month)`: collecting
an iterator into a map keeps the last entry per key. -/
def monthLookup (months : List MonthlyMetrics) (y m : Nat) : Option MonthlyMetrics :=
  (months.filter (fun mm => mm.year == y && mm.month == m)).getLast?

/-- Descending order by combined score. -/
def combinedGe (a b : CombinedMonthlyMetrics) : Prop :=
  b.combined_score ≤ a.combined_score

instance : DecidableRel combinedGe := fun a b => by unfold combinedGe; infer_instance

/-- The union of the two lines' `(year, month)` keys (set iteration fixed
as first-appearance order). -/
def combinedKeys (line_a line_b : MonthlyRankingReport) : List (Nat × Nat) :=
  ((line_a.months.map (fun m => (m.year, m.month)))
    ++ (line_b.months.map (fun m => (m.year, m.month)))).dedup

/-- The combined entry of one `(year, month)` key. -/
def combinedEntry (line_a line_b : MonthlyRankingReport) (k : Nat × Nat) :
    CombinedMonthlyMetrics :=
  let a_metrics := monthLookup line_a.months k.1 k.2
  let b_metrics := monthLookup line_b.months k.1 k.2
  let a_score := a_metrics.map (fun m => m.health_score)
  let b_score := b_metrics.map (fun m => m.health_score)
  let combined_score :=
    match a_score, b_score with
    | some a, some b => (a + b) / 2
    | some a, none => a
    | none, some b => b
    | none, none => 0
  { year := k.1, month := k.2, line_a_score := a_score, line_b_score := b_score,
    combined_score := combined_score, line_a_metrics := a_metrics,
    line_b_metrics := b_metrics }

/-- `ranking::combine_rankings`. -/
def combine_rankings (line_a line_b : MonthlyRankingReport) : CombinedRankingReport :=
  let months0 := (combinedKeys line_a line_b).map (combinedEntry line_a line_b)
  let months := List.insertionSort combinedGe months0
  let both_lines := months.filter (fun m =>
    m.line_a_score.isSome && m.line_b_score.isSome)
  let bw : Option CombinedMonthlyMetrics × Option CombinedMonthlyMetrics :=
    if both_lines.isEmpty then (months.head?, months.getLast?)
    else (both_lines.head?, both_lines.getLast?)
  { months := months, best_month := bw.1, worst_month := bw.2,
    line_a_average := line_a.average_score, line_b_average := line_b.average_score,
    combined_average := (line_a.average_score + line_b.average_score) / 2 }

/-! ## Helper lemmas: signature search -/

lemma sigAt_iff (buffer : List Nat) (i : Nat) :
    sigAt buffer i = true ↔ [0x50, 0x4b, 0x05, 0x06] <+: buffer.drop i := by
  unfold sigAt
  constructor
  · intro h
    match hd : buffer.drop i with
    | 0x50 :: 0x4b :: 0x05 :: 0x06 :: rest => exact ⟨rest, rfl⟩
    | [] => rw [hd] at h; simp at h
    | [a] | [a, b] | [a, b, c] => rw [hd] at h; revert h; split <;> simp_all
    | a :: b :: c :: d :: rest =>
      rw [hd] at h
      revert h; split <;> intro h
      · rename_i heq; injection heq with h1 heq; injection heq with h2 heq
        injection heq with h3 heq; injection heq with h4 _
        subst h1; subst h2; subst h3; subst h4; exact ⟨rest, rfl⟩
      · simp at h
  · rintro ⟨rest, hr⟩
    rw [← hr]
    rfl

lemma sigSearchFrom_iff (buffer : List Nat) (j : Nat) :
    sigSearchFrom buffer j = true ↔ ∃ i ≤ j, sigAt buffer i = true := by
  induction j with
  | zero =>
    simp only [sigSearchFrom]
    constructor
    · intro h; exact ⟨0, le_refl 0, h⟩
    · rintro ⟨i, hi, h⟩; interval_cases i; exact h
  | succ j ih =>
    simp only [sigSearchFrom]
    by_cases h : sigAt buffer (j + 1) = true
    · simp only [h, if_true, true_iff]
      exact ⟨j + 1, le_refl _, h⟩
    · simp only [h, if_false, Bool.false_eq_true, ih]
      constructor
      · rintro ⟨i, hi, hs⟩; exact ⟨i, Nat.le_succ_of_le hi, hs⟩
      · rintro ⟨i, hi, hs⟩
        rcases Nat.eq_or_lt_of_le hi with h1 | h1
        · subst h1; exact absurd hs h
        · exact ⟨i, by omega, hs⟩

lemma sigAt_false_of_ge (buffer : List Nat) (i : Nat) (h : buffer.length < i + 4) :
    sigAt buffer i = false := by
  rw [← Bool.not_eq_true, sigAt_iff]
  rintro ⟨rest, hr⟩
  have := congrArg List.length hr
  simp [List.length_drop] at this
  omega

lemma hasEocdSignature_iff (buffer : List Nat) :
    hasEocdSignature buffer = true ↔
      ∃ i, i + 4 ≤ buffer.length ∧ [0x50, 0x4b, 0x05, 0x06] <+: buffer.drop i := by
  unfold hasEocdSignature
  by_cases h4 : 4 ≤ buffer.length
  · simp only [h4, if_true, sigSearchFrom_iff]
    constructor
    · rintro ⟨i, hi, hs⟩
      exact ⟨i, by omega, (sigAt_iff buffer i).mp hs⟩
    · rintro ⟨i, hi, hs⟩
      exact ⟨i, by omega, (sigAt_iff buffer i).mpr hs⟩
  · simp only [h4, if_false, Bool.false_eq_true, false_iff]
    rintro ⟨i, hi, _⟩
    omega

/-! ## Claim theorems -/

/-- C1. For every month with `expected_weekdays > 0`, the health score is
`100 × (1 − penalty / max_penalty)` clamped to `[0, 100]`, with
`penalty = 10·missing_days + 3·invalid_files + 2·anomaly_count +
1·empty_files` and `max_penalty = 10·expected_weekdays`; a month with
`expected_weekdays = 0` scores 0; a month with all four counts zero and
`expected_weekdays > 0` scores exactly 100; a month with
`missing_days = expected_weekdays` scores exactly 0 after clamping. -/
theorem C1_health_score_formula (m : MonthlyMetrics) :
    (m.expected_weekdays = 0 → calculate_health_score m = 0)
    ∧ (0 < m.expected_weekdays →
        calculate_health_score m =
          min (max (100 * (1 -
            (10 * (m.missing_days : ℚ) + 3 * (m.invalid_files : ℚ)
              + 2 * (m.anomaly_count : ℚ) + 1 * (m.empty_files : ℚ))
            / (10 * (m.expected_weekdays : ℚ)))) 0) 100)
    ∧ (0 < m.expected_weekdays ∧ m.missing_days = 0 ∧ m.invalid_files = 0
        ∧ m.anomaly_count = 0 ∧ m.empty_files = 0 →
        calculate_health_score m = 100)
    ∧ (0 < m.expected_weekdays ∧ m.missing_days = m.expected_weekdays →
        calculate_health_score m = 0) := by
  refine ⟨?_, ?_, ?_, ?_⟩
  · intro h; simp [calculate_health_score, h]
  · intro h
    have hne : m.expected_weekdays ≠ 0 := Nat.pos_iff_ne_zero.mp h
    simp only [calculate_health_score, hne, if_false]
    congr 2
    push_cast
    ring
  · rintro ⟨h, h1, h2, h3, h4⟩
    have hne : m.expected_weekdays ≠ 0 := Nat.pos_iff_ne_zero.mp h
    simp only [calculate_health_score, hne, if_false, h1, h2, h3, h4]
    norm_num
  · rintro ⟨h, h1⟩
    have hne : m.expected_weekdays ≠ 0 := Nat.pos_iff_ne_zero.mp h
    simp only [calculate_health_score, hne, if_false]
    have hmp : (0 : ℚ) < ((m.expected_weekdays * 10 : Nat) : ℚ) := by
      push_cast; positivity
    have hpen : ((m.expected_weekdays * 10 : Nat) : ℚ) ≤
        ((m.missing_days * 10 + m.invalid_files * 3 + m.anomaly_count * 2
          + m.empty_files : Nat) : ℚ) := by
      push_cast; rw [h1]; nlinarith [Nat.cast_nonneg (α := ℚ) m.invalid_files,
        Nat.cast_nonneg (α := ℚ) m.anomaly_count, Nat.cast_nonneg (α := ℚ) m.empty_files]
    have hratio : (1 : ℚ) ≤
        ((m.missing_days * 10 + m.invalid_files * 3 + m.anomaly_count * 2
          + m.empty_files : Nat) : ℚ) / ((m.expected_weekdays * 10 : Nat) : ℚ) :=
      (one_le_div hmp).mpr hpen
    have hle : (100 : ℚ) * (1 -
        ((m.missing_days * 10 + m.invalid_files * 3 + m.anomaly_count * 2
          + m.empty_files : Nat) : ℚ) / ((m.expected_weekdays * 10 : Nat) : ℚ)) ≤ 0 := by
      nlinarith
    rw [max_eq_right hle, min_eq_left (by norm_num : (0 : ℚ) ≤ 100)]

/-- C1 witness: a clean month with 22 expected weekdays scores 100, and
one with all 22 weekdays missing scores 0. -/
theorem C1_health_score_formula_witness :
    calculate_health_score
      ⟨2024, 8, 0, 0, 0, 0, 22, 22, 0, true⟩ = 100
    ∧ calculate_health_score
      ⟨2024, 12, 22, 0, 0, 0, 22, 0, 0, true⟩ = 0 :=
  ⟨(C1_health_score_formula ⟨2024, 8, 0, 0, 0, 0, 22, 22, 0, true⟩).2.2.1
      ⟨by decide, rfl, rfl, rfl, rfl⟩,
    (C1_health_score_formula ⟨2024, 12, 22, 0, 0, 0, 22, 0, 0, true⟩).2.2.2
      ⟨by decide, rfl⟩⟩

/-- C2. The structural validity checker: a file shorter than 22 bytes is
invalid with a reason naming its actual size and the 22-byte minimum; a
file of at least 22 bytes is valid exactly when the EOCD signature
`50 4B 05 06` occurs anywhere in its last `min (length, 65557)` bytes,
and otherwise invalid with the missing-signature reason; a failure of
open, metadata, seek or read is invalid with a reason naming that step.
(The function is a total Lean function: it never raises.) -/
theorem C2_is_zip_valid_spec (f : ZipFile) :
    (f.openOk = false → is_zip_valid f = (false, some ("Cannot open file")))
    ∧ (f.openOk = true → f.metaOk = false →
        is_zip_valid f = (false, some ("Cannot read file metadata")))
    ∧ (f.openOk = true → f.metaOk = true → f.content.length < 22 →
        is_zip_valid f = (false, some ("File too small (" ++ toString f.content.length
          ++ " bytes, minimum 22 bytes required)")))
    ∧ (f.openOk = true → f.metaOk = true → 22 ≤ f.content.length → f.seekOk = false →
        is_zip_valid f = (false, some ("Cannot seek to end of file")))
    ∧ (f.openOk = true → f.metaOk = true → 22 ≤ f.content.length → f.seekOk = true →
        f.readOk = false → is_zip_valid f = (false, some ("Cannot read file contents")))
    ∧ (f.openOk = true → f.metaOk = true → 22 ≤ f.content.length → f.seekOk = true →
        f.readOk = true →
        (is_zip_valid f = (true, none) ↔
          ∃ i, i + 4 ≤ min f.content.length 65557 ∧
            [0x50, 0x4b, 0x05, 0x06] <+:
              (f.content.drop (f.content.length - min f.content.length 65557)).drop i)
        ∧ (is_zip_valid f ≠ (true, none) →
            is_zip_valid f =
              (false, some ("Missing ZIP signature (corrupted or incomplete transfer)")))) := by
  refine ⟨?_, ?_, ?_, ?_, ?_, ?_⟩
  · intro h; simp [is_zip_valid, h]
  · intro h1 h2; simp [is_zip_valid, h1, h2]
  · intro h1 h2 h3; simp [is_zip_valid, h1, h2, h3]
  · intro h1 h2 h3 h4
    simp only [is_zip_valid, h1, h2, h4, Bool.not_true, Bool.not_false, Bool.false_eq_true,
      if_false, if_true]
    rw [if_neg (by omega)]
  · intro h1 h2 h3 h4 h5
    simp only [is_zip_valid, h1, h2, h4, h5, Bool.not_true, Bool.not_false, Bool.false_eq_true,
      if_false, if_true]
    rw [if_neg (by omega)]
  · intro h1 h2 h3 h4 h5
    have hbuf : (f.content.drop (f.content.length - min f.content.length (65535 + 22))).length
        = min f.content.length 65557 := by
      rw [List.length_drop]; omega
    constructor
    · simp only [is_zip_valid, h1, h2, h4, h5, Bool.not_true, Bool.not_false, Bool.false_eq_true,
        if_false, if_true]
      rw [if_neg (by omega)]
      constructor
      · intro h
        have hs : hasEocdSignature
            (f.content.drop (f.content.length - min f.content.length (65535 + 22))) = true := by
          by_contra hc
          rw [if_neg hc] at h
          exact absurd (congrArg Prod.fst h) (by simp)
        rcases (hasEocdSignature_iff _).mp hs with ⟨i, hi, hp⟩
        rw [hbuf] at hi
        exact ⟨i, hi, hp⟩
      · rintro ⟨i, hi, hp⟩
        rw [if_pos ((hasEocdSignature_iff _).mpr ⟨i, by rw [hbuf]; exact hi, hp⟩)]
    · intro hne
      simp only [is_zip_valid, h1, h2, h4, h5, Bool.not_true, Bool.not_false, Bool.false_eq_true,
        if_false, if_true] at hne ⊢
      rw [if_neg (by omega)] at hne ⊢
      by_cases hs : hasEocdSignature
          (f.content.drop (f.content.length - min f.content.length (65535 + 22))) = true
      · rw [if_pos hs] at hne; exact absurd rfl hne
      · rw [if_neg hs]

/-- C2 witness: a 22-byte file whose EOCD signature sits at the front,
preceded nowhere and followed by a look-alike prefix `50 4B 05`, is
accepted; the signature does occur in its 22-byte trailing window. -/
theorem C2_is_zip_valid_spec_witness :
    is_zip_valid
        ⟨true, true, true, true,
          [0x50, 0x4b, 0x05, 0x06, 0x50, 0x4b, 0x05, 0, 0, 0, 0, 0, 0, 0, 0, 0, 0, 0, 0, 0, 0, 0]⟩
      = (true, none) :=
  (((C2_is_zip_valid_spec
      ⟨true, true, true, true,
        [0x50, 0x4b, 0x05, 0x06, 0x50, 0x4b, 0x05, 0, 0, 0, 0, 0, 0, 0, 0, 0, 0, 0, 0, 0, 0, 0]⟩).2.2.2.2.2
    rfl rfl (by decide) rfl rfl).1).mpr ⟨0, by decide, ⟨_, rfl⟩⟩

/-- C9. The anti-claim evaluation: `scan_files` does not skip a file
whose metadata cannot be read — when both `entry.metadata()` and the
`std::fs::metadata` fallback fail, the `unwrap` panics and the whole scan
aborts, even though other entries were fine. -/
theorem C9_scan_metadata_panic :
    scan_files_sizes
        [⟨some 10, none, "ok.zip"⟩, ⟨none, none, "gone.zip"⟩, ⟨some 7, none, "after.zip"⟩]
      = Except.error ("panicked at Result::unwrap on an Err value in scan_files")
    ∧ scan_files_sizes [⟨none, some 5, "fallback.zip"⟩] = Except.ok [5] := by
  exact ⟨rfl, rfl⟩

/-! ## Helper lemmas: dedup of a sorted list -/

lemma dedupSorted_eq_nil_iff (l : List NaiveDate) : dedupSorted l = [] ↔ l = [] := by
  induction l with
  | nil => simp [dedupSorted]
  | cons a l ih =>
    cases l with
    | nil => simp [dedupSorted]
    | cons b rest =>
      unfold dedupSorted
      split
      · simpa using ih
      · simp

lemma mem_dedupSorted (l : List NaiveDate) (d : NaiveDate) :
    d ∈ dedupSorted l ↔ d ∈ l := by
  induction l with
  | nil => simp [dedupSorted]
  | cons a l ih =>
    cases l with
    | nil => simp [dedupSorted]
    | cons b rest =>
      unfold dedupSorted
      split
      · rename_i h
        rw [ih]
        subst h
        simp
      · rename_i h
        simp only [List.mem_cons, ih]

/-- C10. Degenerate input yields an explicit "no data" result:
`calculate_integrity_stats` is `none` exactly for an empty record list,
`find_gaps` reports `is_empty` exactly when no record's parent directory
yields a parseable archive date, and `calculate_anomalies` is `none`
exactly for an empty per-day size mapping. -/
theorem C10_no_data_results :
    (∀ (files : List FileEntry) (t : Nat) (sqrtFn : ℚ → ℚ),
      calculate_integrity_stats files t sqrtFn = none ↔ files = [])
    ∧ (∀ (files : List FileEntry) (line_id : String),
      (find_gaps files line_id).is_empty = true ↔ extractDates files line_id = [])
    ∧ (∀ (dirs : List (String × Nat)) (threshold : ℚ),
      calculate_anomalies dirs threshold = none ↔ dirs = []) := by
  refine ⟨?_, ?_, ?_⟩
  · intro files t sqrtFn
    unfold calculate_integrity_stats
    by_cases h : files.isEmpty
    · simp [h, List.isEmpty_iff.mp h]
    · simp only [h, if_false]
      simp only [Bool.not_eq_true] at h
      constructor
      · intro hc; exact absurd hc (by simp)
      · intro hc; exact absurd (by simp [hc] : files.isEmpty = true) (by simp [h])
  · intro files line_id
    unfold find_gaps
    have hnil : dedupSorted (List.insertionSort dateLe (extractDates files line_id)) = []
        ↔ extractDates files line_id = [] := by
      rw [dedupSorted_eq_nil_iff]
      constructor
      · intro h
        have hp := List.perm_insertionSort dateLe (extractDates files line_id)
        rw [h] at hp
        exact (List.Perm.nil_eq hp).symm
      · intro h; rw [h]; rfl
    rcases hd : dedupSorted (List.insertionSort dateLe (extractDates files line_id)) with
      _ | ⟨a, rest⟩
    · simpa using hnil.mp hd
    · simp only []
      constructor
      · intro hfalse; simp at hfalse
      · intro hext
        rw [hnil.mpr hext] at hd
        exact absurd hd (by simp)
  · intro dirs threshold
    unfold calculate_anomalies
    by_cases h : (dirs.map (fun p => p.2)).isEmpty
    · simp only [h, if_true]
      simp only [List.isEmpty_iff, List.map_eq_nil_iff] at h
      simp [h]
    · simp only [h, if_false]
      rw [Bool.not_eq_true, ← Bool.not_eq_true] at h
      have h2 : dirs ≠ [] := fun hc => h (by simp [hc])
      constructor
      · intro hc; exact absurd hc (by simp)
      · intro hc; exact absurd hc h2

/-- C10 witness: the three "no data" shapes at concrete empty inputs. -/
theorem C10_no_data_results_witness :
    calculate_integrity_stats [] 1000 id = none
    ∧ (find_gaps [] "B").is_empty = true
    ∧ calculate_anomalies [] (4 / 5) = none :=
  ⟨(C10_no_data_results.1 [] 1000 id).mpr rfl,
    (C10_no_data_results.2.1 [] "B").mpr rfl,
    (C10_no_data_results.2.2 [] (4 / 5)).mpr rfl⟩

/-! ## Helper lemmas: the always-empty set -/

lemma find_always_empty_files_iff (files : List FileEntry) (t : Nat) (name : String) :
    find_always_empty_files files t name = true ↔
      (∃ f ∈ files, f.name = name) ∧ ∀ f ∈ files, f.name = name → f.size < t := by
  simp only [find_always_empty_files, Bool.and_eq_true, beq_iff_eq, decide_eq_true_eq]
  have hsplit : files.filter (fun f => f.name == name && decide (f.size < t))
      = (files.filter (fun f => f.name == name)).filter (fun f => decide (f.size < t)) := by
    rw [List.filter_filter]
    apply List.filter_congr
    intro f _
    rw [Bool.and_comm]
  constructor
  · rintro ⟨heq, hpos⟩
    rw [hsplit] at heq
    have hall : ∀ f ∈ files.filter (fun f => f.name == name), f.size < t := by
      intro f hf
      have := List.filter_length_eq_length.mp heq.symm f hf
      simpa using this
    constructor
    · rcases List.length_pos_iff_exists_mem.mp hpos with ⟨f, hf⟩
      rcases List.mem_filter.mp hf with ⟨hf1, hf2⟩
      exact ⟨f, hf1, by simpa using hf2⟩
    · intro f hf hn
      exact hall f (List.mem_filter.mpr ⟨hf, by simpa using hn⟩)
  · rintro ⟨⟨f, hf, hn⟩, hall⟩
    constructor
    · rw [hsplit]
      symm
      apply List.filter_length_eq_length.mpr
      intro g hg
      rcases List.mem_filter.mp hg with ⟨hg1, hg2⟩
      simpa using hall g hg1 (by simpa using hg2)
    · exact List.length_pos_iff_exists_mem.mpr ⟨f, List.mem_filter.mpr ⟨hf, by simpa using hn⟩⟩

/-- C4. A below-threshold record of a month counts toward that month's
`empty_files` exactly when its filename is not always-empty, where a
filename is always-empty exactly when at least one record carries it and
every record carrying it (across the whole input) is below the
threshold. -/
theorem C4_always_empty_exclusion (files : List FileEntry) (t : Nat)
    (line_id : String) (y m : Nat) :
    (∀ name : String,
      find_always_empty_files files t name = true ↔
        (∃ f ∈ files, f.name = name) ∧ ∀ f ∈ files, f.name = name → f.size < t)
    ∧ (∀ (gap : Option GapReport) (anomaly : Option AnomalyReport)
        (start_date end_date today : Nat) (mm : MonthlyMetrics),
        monthMetrics files gap anomaly line_id start_date end_date today t y m = some mm →
        mm.empty_files = ((filesInMonth files line_id y m).filter (fun f =>
          decide (f.size < t ∧
            ¬((∃ g ∈ files, g.name = f.name)
              ∧ ∀ g ∈ files, g.name = f.name → g.size < t)))).length) := by
  constructor
  · exact find_always_empty_files_iff files t
  · intro gap anomaly start_date end_date today mm hmm
    unfold monthMetrics at hmm
    by_cases he : count_expected_weekdays_in_month y m start_date end_date today = 0
    · rw [if_pos he] at hmm; exact absurd hmm (by simp)
    · rw [if_neg he] at hmm
      have hempty := congrArg MonthlyMetrics.empty_files (Option.some_injective _ hmm)
      rw [← hempty]
      apply congrArg List.length
      apply List.filter_congr
      intro f _
      rw [Bool.eq_iff_iff]
      simp only [Bool.and_eq_true, decide_eq_true_eq, Bool.not_eq_true',
        Bool.eq_false_iff, Ne, find_always_empty_files_iff]

/-- The record set of the repository's own always-empty scoring test:
two archives; one file empty in both, one normal, one empty once. -/
def exampleFilesB : List FileEntry :=
  [⟨"DeviceCptr26.zip", 22, true, none, 0, "Archive_Beam_B_2024-10-01"⟩,
    ⟨"normal.zip", 5000, true, none, 0, "Archive_Beam_B_2024-10-01"⟩,
    ⟨"sometimes_empty.zip", 22, true, none, 0, "Archive_Beam_B_2024-10-01"⟩,
    ⟨"DeviceCptr26.zip", 22, true, none, 0, "Archive_Beam_B_2024-10-02"⟩,
    ⟨"normal.zip", 5100, true, none, 0, "Archive_Beam_B_2024-10-02"⟩,
    ⟨"sometimes_empty.zip", 5000, true, none, 0, "Archive_Beam_B_2024-10-02"⟩]

/-- C4 witness: on the concrete record set, the always-always-empty file
is in the exclusion set (and the characterization instantiates to it),
while the sometimes-empty file is not. -/
theorem C4_always_empty_exclusion_witness :
    find_always_empty_files exampleFilesB 1000 "DeviceCptr26.zip" = true
    ∧ find_always_empty_files exampleFilesB 1000 "sometimes_empty.zip" = false
    ∧ ((∃ f ∈ exampleFilesB, f.name = "DeviceCptr26.zip")
        ∧ ∀ f ∈ exampleFilesB, f.name = "DeviceCptr26.zip" → f.size < 1000) :=
  ⟨by decide, by decide,
    ((C4_always_empty_exclusion exampleFilesB 1000 "B" 2024 10).1
      "DeviceCptr26.zip").mp (by decide)⟩

/-! ## Helper lemmas: the combiner -/

lemma countP_key_dedup (l : List (Nat × Nat)) (y m : Nat) :
    (l.dedup.countP (fun k => k.1 == y && k.2 == m)) = if (y, m) ∈ l then 1 else 0 := by
  have hgen : ∀ t : List (Nat × Nat), t.Nodup →
      t.countP (fun k => k.1 == y && k.2 == m) = if (y, m) ∈ t then 1 else 0 := by
    intro t
    induction t with
    | nil => intro _; simp
    | cons b rest ih =>
      intro ht
      rcases List.nodup_cons.mp ht with ⟨hb, hrest⟩
      rw [List.countP_cons, ih hrest]
      by_cases hba : b = (y, m)
      · subst hba
        simp [hb]
      · have hpb : (b.1 == y && b.2 == m) = false := by
          rcases b with ⟨b1, b2⟩
          simp only [Bool.and_eq_false_iff, beq_eq_false_iff_ne, Ne]
          by_contra hc
          push_neg at hc
          exact hba (by simp [Prod.ext_iff, hc.1, hc.2])
        have hmemc : ((y, m) ∈ b :: rest) ↔ (y, m) ∈ rest := by
          rw [List.mem_cons]
          constructor
          · rintro (h | h)
            · exact absurd h.symm hba
            · exact h
          · exact Or.inr
        simp [hpb, hmemc]
  rw [hgen l.dedup (List.nodup_dedup l)]
  simp [List.mem_dedup]

lemma combine_months_perm (line_a line_b : MonthlyRankingReport) :
    ((combine_rankings line_a line_b).months).Perm
      ((combinedKeys line_a line_b).map (combinedEntry line_a line_b)) := by
  unfold combine_rankings
  exact List.perm_insertionSort _ _

/-- C5. The combiner emits exactly one month per `(year, month)` key of
either line; its combined score is the mean of the two line scores when
both exist and the single line's score otherwise; best and worst months
come from among the months with data from both lines when any exists,
and fall back to the full sorted month set (its first and last entries)
otherwise. On the worked example (A: Oct 80, Nov 90; B: Oct 70,
Nov 100, stated below as a witness) the combined scores are Oct 75 and
Nov 95 with best November and worst October. -/
theorem C5_combine_rankings_spec (line_a line_b : MonthlyRankingReport) :
    (∀ y m : Nat,
      ((combine_rankings line_a line_b).months.countP
          (fun c => c.year == y && c.month == m))
        = (if (y, m) ∈ (line_a.months.map (fun mm => (mm.year, mm.month)))
              ++ (line_b.months.map (fun mm => (mm.year, mm.month))) then 1 else 0))
    ∧ (∀ c ∈ (combine_rankings line_a line_b).months,
        c.line_a_score = (monthLookup line_a.months c.year c.month).map
          (fun mm => mm.health_score)
        ∧ c.line_b_score = (monthLookup line_b.months c.year c.month).map
          (fun mm => mm.health_score)
        ∧ c.combined_score =
          (match c.line_a_score, c.line_b_score with
          | some a, some b => (a + b) / 2
          | some a, none => a
          | none, some b => b
          | none, none => 0))
    ∧ ((∃ c ∈ (combine_rankings line_a line_b).months,
          c.line_a_score.isSome ∧ c.line_b_score.isSome) →
        (∃ bm, (combine_rankings line_a line_b).best_month = some bm
          ∧ bm ∈ (combine_rankings line_a line_b).months
          ∧ bm.line_a_score.isSome ∧ bm.line_b_score.isSome)
        ∧ (∃ wm, (combine_rankings line_a line_b).worst_month = some wm
          ∧ wm ∈ (combine_rankings line_a line_b).months
          ∧ wm.line_a_score.isSome ∧ wm.line_b_score.isSome))
    ∧ ((¬ ∃ c ∈ (combine_rankings line_a line_b).months,
          c.line_a_score.isSome ∧ c.line_b_score.isSome) →
        (combine_rankings line_a line_b).best_month
          = (combine_rankings line_a line_b).months.head?
        ∧ (combine_rankings line_a line_b).worst_month
          = (combine_rankings line_a line_b).months.getLast?
        ∧ ((combine_rankings line_a line_b).months ≠ [] →
          (∃ bm, (combine_rankings line_a line_b).best_month = some bm
            ∧ bm ∈ (combine_rankings line_a line_b).months)
          ∧ (∃ wm, (combine_rankings line_a line_b).worst_month = some wm
            ∧ wm ∈ (combine_rankings line_a line_b).months))) := by
  refine ⟨?_, ?_, ?_, ?_⟩
  · intro y m
    rw [List.Perm.countP_eq _ (combine_months_perm line_a line_b), List.countP_map]
    have hcomp : ((fun c : CombinedMonthlyMetrics => c.year == y && c.month == m)
        ∘ combinedEntry line_a line_b) = (fun k : Nat × Nat => k.1 == y && k.2 == m) := by
      funext k
      simp [combinedEntry, Function.comp]
    rw [hcomp]
    exact countP_key_dedup _ y m
  · intro c hc
    have hc2 := (combine_months_perm line_a line_b).mem_iff.mp hc
    rcases List.mem_map.mp hc2 with ⟨k, _, hk⟩
    subst hk
    refine ⟨rfl, rfl, ?_⟩
    show (combinedEntry line_a line_b k).combined_score = _
    unfold combinedEntry
    rcases hA : monthLookup line_a.months k.1 k.2 with _ | ma <;>
      rcases hB : monthLookup line_b.months k.1 k.2 with _ | mb <;>
      simp [hA, hB]
  · intro hex
    have hne : (combine_rankings line_a line_b).months.filter
        (fun m => m.line_a_score.isSome && m.line_b_score.isSome) ≠ [] := by
      rcases hex with ⟨c, hc, h1, h2⟩
      intro hnil
      have : c ∈ (combine_rankings line_a line_b).months.filter
          (fun m => m.line_a_score.isSome && m.line_b_score.isSome) :=
        List.mem_filter.mpr ⟨hc, by simp [h1, h2]⟩
      rw [hnil] at this
      exact absurd this (List.not_mem_nil c)
    have hbw : (combine_rankings line_a line_b).best_month
          = ((combine_rankings line_a line_b).months.filter
              (fun m => m.line_a_score.isSome && m.line_b_score.isSome)).head?
        ∧ (combine_rankings line_a line_b).worst_month
          = ((combine_rankings line_a line_b).months.filter
              (fun m => m.line_a_score.isSome && m.line_b_score.isSome)).getLast? := by
      unfold combine_rankings at hne ⊢
      simp only []
      rw [if_neg (by simpa using hne)]
      exact ⟨rfl, rfl⟩
    constructor
    · have hmem := List.mem_filter.mp (List.head_mem hne)
      refine ⟨_, hbw.1.trans (List.head?_eq_head hne), hmem.1, ?_, ?_⟩
      · have h2 := hmem.2; simp only [Bool.and_eq_true] at h2; exact h2.1
      · have h2 := hmem.2; simp only [Bool.and_eq_true] at h2; exact h2.2
    · have hmem := List.mem_filter.mp (List.getLast_mem hne)
      refine ⟨_, hbw.2.trans (List.getLast?_eq_getLast _ hne), hmem.1, ?_, ?_⟩
      · have h2 := hmem.2; simp only [Bool.and_eq_true] at h2; exact h2.1
      · have h2 := hmem.2; simp only [Bool.and_eq_true] at h2; exact h2.2
  · intro hnex
    have hflt : (combine_rankings line_a line_b).months.filter
        (fun m => m.line_a_score.isSome && m.line_b_score.isSome) = [] := by
      rcases hx : (combine_rankings line_a line_b).months.filter
          (fun m => m.line_a_score.isSome && m.line_b_score.isSome) with _ | ⟨c, cs⟩
      · exact hx
      · exfalso
        have hc : c ∈ (combine_rankings line_a line_b).months.filter
            (fun m => m.line_a_score.isSome && m.line_b_score.isSome) := by
          rw [hx]
          exact List.mem_cons_self c cs
        rcases List.mem_filter.mp hc with ⟨hcm, hcp⟩
        simp only [Bool.and_eq_true] at hcp
        exact hnex ⟨c, hcm, hcp.1, hcp.2⟩
    have hbw : (combine_rankings line_a line_b).best_month
          = (combine_rankings line_a line_b).months.head?
        ∧ (combine_rankings line_a line_b).worst_month
          = (combine_rankings line_a line_b).months.getLast? := by
      unfold combine_rankings at hflt ⊢
      simp only []
      rw [if_pos (by simpa using hflt)]
      exact ⟨rfl, rfl⟩
    refine ⟨hbw.1, hbw.2, ?_⟩
    intro hmne
    exact ⟨⟨_, hbw.1.trans (List.head?_eq_head hmne), List.head_mem hmne⟩,
      ⟨_, hbw.2.trans (List.getLast?_eq_getLast _ hmne), List.getLast_mem hmne⟩⟩

/-- A complete clean month record for the combiner example. -/
def mkExampleMonth (y mo inv ew aa : Nat) (hs : ℚ) : MonthlyMetrics :=
  ⟨y, mo, 0, 0, inv, 0, ew, aa, hs, true⟩

/-- The combiner example's line A: October 80, November 90. -/
def exampleLineA : MonthlyRankingReport :=
  { months := [mkExampleMonth 2024 10 2 23 23 80, mkExampleMonth 2024 11 0 21 21 90],
    best_month := none, worst_month := none, average_score := 85, line_id := "A" }

/-- The combiner example's line B: October 70, November 100. -/
def exampleLineB : MonthlyRankingReport :=
  { months := [mkExampleMonth 2024 10 5 23 23 70, mkExampleMonth 2024 11 0 21 21 100],
    best_month := none, worst_month := none, average_score := 85, line_id := "B" }

/-- A line with only October 2024 (score 100), for the fallback case. -/
def exampleLineC : MonthlyRankingReport :=
  { months := [mkExampleMonth 2024 10 0 23 23 100],
    best_month := none, worst_month := none, average_score := 100, line_id := "A" }

/-- A line with only November 2024 (score 80), for the fallback case. -/
def exampleLineD : MonthlyRankingReport :=
  { months := [mkExampleMonth 2024 11 0 21 21 80],
    best_month := none, worst_month := none, average_score := 80, line_id := "B" }

/-- C5 witness: the worked example. Line A {Oct 80, Nov 90} with line B
{Oct 70, Nov 100} combine to {Nov 95, Oct 75} (sorted best first), with
best month November and worst month October; and on two lines with no
common month (Oct-only vs Nov-only) best and worst fall back to the
first and last of the full sorted set. -/
theorem C5_combine_rankings_spec_witness :
    ((combine_rankings exampleLineA exampleLineB).months.map
        (fun c => (c.year, c.month, c.combined_score)) = [(2024, 11, (95 : ℚ)), (2024, 10, 75)]
    ∧ (combine_rankings exampleLineA exampleLineB).best_month.map
        (fun c => (c.year, c.month)) = some (2024, 11)
    ∧ (combine_rankings exampleLineA exampleLineB).worst_month.map
        (fun c => (c.year, c.month)) = some (2024, 10))
    ∧ ((combine_rankings exampleLineC exampleLineD).best_month.map
        (fun c => (c.year, c.month)) = some (2024, 10)
    ∧ (combine_rankings exampleLineC exampleLineD).worst_month.map
        (fun c => (c.year, c.month)) = some (2024, 11)) := by
  constructor
  · norm_num [combine_rankings, combinedKeys, combinedEntry, monthLookup, exampleLineA,
      exampleLineB, mkExampleMonth, List.insertionSort, List.orderedInsert, combinedGe,
      List.dedup_cons_of_mem, List.dedup_cons_of_not_mem, List.filter_cons, List.filter_nil,
      List.getLast?_cons_cons, List.getLast?_singleton, List.getLast?_nil]
  · norm_num [combine_rankings, combinedKeys, combinedEntry, monthLookup, exampleLineC,
      exampleLineD, mkExampleMonth, List.insertionSort, List.orderedInsert, combinedGe,
      List.dedup_cons_of_mem, List.dedup_cons_of_not_mem, List.filter_cons, List.filter_nil,
      List.getLast?_cons_cons, List.getLast?_singleton, List.getLast?_nil]

/-! ## Helper lemmas: medians -/

/-- The per-group median of the Aggregator: the value pushed into
`all_medians` for a filename's group (computed from the ascending vector
of at-or-above-threshold sizes). -/
def groupMedian (files : List FileEntry) (t : Nat) (name : String) : ℚ :=
  medianOfSorted (sortedSizes (groupOf files name) t)

/-- The standard median, stated on a multiset of values (so it cannot
depend on input order): the middle value of the values arranged
ascending for an odd count, the average of the two central values for an
even count. -/
def median_spec (s : Multiset ℚ) : ℚ :=
  medianOfSorted (s.sort (· ≤ ·))

lemma insertionSort_eq_multiset_sort (l : List ℚ) :
    List.insertionSort (· ≤ ·) l = Multiset.sort (· ≤ ·) (↑l : Multiset ℚ) := by
  apply List.eq_of_perm_of_sorted (r := (· ≤ ·))
  · exact (List.perm_insertionSort _ l).trans
      (Multiset.coe_eq_coe.mp (Multiset.sort_eq (· ≤ ·) (↑l : Multiset ℚ))).symm
  · exact List.sorted_insertionSort _ l
  · exact Multiset.sort_sorted _ _

/-- C6. The Aggregator's per-group median (over the sizes at or above the
tiny threshold) equals the standard definition — a function of the
multiset of those sizes, taking the middle of the sorted values for an
odd count and the midpoint of the two central values for an even count —
and is therefore invariant under any permutation of the input records. -/
theorem C6_group_median_standard (files₁ files₂ : List FileEntry) (t : Nat) (name : String) :
    groupMedian files₁ t name
      = median_spec (↑(((groupOf files₁ name).filter (fun e => t ≤ e.size)).map
          (fun e => (e.size : ℚ))))
    ∧ (files₁.Perm files₂ → groupMedian files₁ t name = groupMedian files₂ t name) := by
  have hform : ∀ files : List FileEntry,
      groupMedian files t name
        = median_spec (↑(((groupOf files name).filter (fun e => t ≤ e.size)).map
            (fun e => (e.size : ℚ)))) := by
    intro files
    unfold groupMedian median_spec sortedSizes
    rw [insertionSort_eq_multiset_sort]
  refine ⟨hform files₁, ?_⟩
  intro hp
  rw [hform files₁, hform files₂]
  congr 1
  rw [Multiset.coe_eq_coe]
  exact ((hp.filter _).filter _).map _

/-- C6 witness: a concrete group of four records (sizes 5, 1, 3, 7 at
threshold 0) has median `(3 + 5) / 2 = 4`, and a permutation of the
records leaves it unchanged. -/
theorem C6_group_median_standard_witness :
    groupMedian
        [⟨"a.zip", 5, true, none, 0, "d"⟩, ⟨"a.zip", 1, true, none, 0, "d"⟩,
          ⟨"a.zip", 3, true, none, 0, "d"⟩, ⟨"a.zip", 7, true, none, 0, "d"⟩] 0 "a.zip"
      = groupMedian
        [⟨"a.zip", 7, true, none, 0, "d"⟩, ⟨"a.zip", 3, true, none, 0, "d"⟩,
          ⟨"a.zip", 1, true, none, 0, "d"⟩, ⟨"a.zip", 5, true, none, 0, "d"⟩] 0 "a.zip"
    ∧ groupMedian
        [⟨"a.zip", 5, true, none, 0, "d"⟩, ⟨"a.zip", 1, true, none, 0, "d"⟩,
          ⟨"a.zip", 3, true, none, 0, "d"⟩, ⟨"a.zip", 7, true, none, 0, "d"⟩] 0 "a.zip" = 4 :=
  ⟨(C6_group_median_standard
      [⟨"a.zip", 5, true, none, 0, "d"⟩, ⟨"a.zip", 1, true, none, 0, "d"⟩,
        ⟨"a.zip", 3, true, none, 0, "d"⟩, ⟨"a.zip", 7, true, none, 0, "d"⟩]
      [⟨"a.zip", 7, true, none, 0, "d"⟩, ⟨"a.zip", 3, true, none, 0, "d"⟩,
        ⟨"a.zip", 1, true, none, 0, "d"⟩, ⟨"a.zip", 5, true, none, 0, "d"⟩]
      0 "a.zip").2 (by decide),
    by
      norm_num [groupMedian, sortedSizes, groupOf, medianOfSorted, List.insertionSort,
        List.orderedInsert, List.filter_cons, List.filter_nil]⟩

/-! ## Helper lemmas: the stats fold -/

lemma rowOf_total (files : List FileEntry) (t : Nat) (sqrtFn : ℚ → ℚ) (n : String) :
    (rowOf files t sqrtFn n).total = (groupOf files n).length := by
  simp only [rowOf]; split <;> rfl

lemma rowOf_empty (files : List FileEntry) (t : Nat) (sqrtFn : ℚ → ℚ) (n : String) :
    (rowOf files t sqrtFn n).empty
      = ((groupOf files n).filter (fun e => e.size < t)).length := by
  simp only [rowOf]; split <;> rfl

lemma rowOf_bad (files : List FileEntry) (t : Nat) (sqrtFn : ℚ → ℚ) (n : String) :
    (rowOf files t sqrtFn n).bad
      = ((groupOf files n).filter (fun e => !e.is_valid)).length := by
  simp only [rowOf]; split <;> rfl

lemma rowOf_valid_stats (files : List FileEntry) (t : Nat) (sqrtFn : ℚ → ℚ) (n : String) :
    (rowOf files t sqrtFn n).valid_stats
      = !(sortedSizes (groupOf files n) t).isEmpty := by
  simp only [rowOf]
  by_cases h : (sortedSizes (groupOf files n) t).isEmpty <;> simp [h]

lemma statsFold_fields (files : List FileEntry) (t : Nat) (sqrtFn : ℚ → ℚ)
    (names : List String) (acc : StatsAcc) :
    (names.foldl (statsStep files t sqrtFn) acc).rows
        = acc.rows ++ names.map (rowOf files t sqrtFn)
    ∧ (names.foldl (statsStep files t sqrtFn) acc).grand_total
        = acc.grand_total + (names.map (fun n => (groupOf files n).length)).sum
    ∧ (names.foldl (statsStep files t sqrtFn) acc).grand_empty
        = acc.grand_empty + (names.map (fun n =>
            ((groupOf files n).filter (fun e => e.size < t)).length)).sum
    ∧ (names.foldl (statsStep files t sqrtFn) acc).grand_bad
        = acc.grand_bad + (names.map (fun n =>
            ((groupOf files n).filter (fun e => !e.is_valid)).length)).sum
    ∧ (names.foldl (statsStep files t sqrtFn) acc).all_medians
        = acc.all_medians ++ (names.filter (fun n =>
            !(sortedSizes (groupOf files n) t).isEmpty)).map (fun n =>
              medianOfSorted (sortedSizes (groupOf files n) t))
    ∧ (names.foldl (statsStep files t sqrtFn) acc).all_stddevs
        = acc.all_stddevs ++ (names.filter (fun n =>
            !(sortedSizes (groupOf files n) t).isEmpty)).map (fun n =>
              sqrtFn (varianceOfSizes (sortedSizes (groupOf files n) t)))
    ∧ (names.foldl (statsStep files t sqrtFn) acc).valid_groups
        = acc.valid_groups + (names.filter (fun n =>
            !(sortedSizes (groupOf files n) t).isEmpty)).length := by
  induction names generalizing acc with
  | nil => simp
  | cons n rest ih =>
    have hstep : ∀ b : StatsAcc, (n :: rest).foldl (statsStep files t sqrtFn) b
        = rest.foldl (statsStep files t sqrtFn) (statsStep files t sqrtFn b n) := by
      intro b; rfl
    rw [hstep]
    rcases ih (statsStep files t sqrtFn acc n) with ⟨h1, h2, h3, h4, h5, h6, h7⟩
    by_cases hs : (sortedSizes (groupOf files n) t).isEmpty
    · refine ⟨?_, ?_, ?_, ?_, ?_, ?_, ?_⟩
      · rw [h1]; simp [statsStep, hs]
      · rw [h2]; simp [statsStep, hs]; ring
      · rw [h3]; simp [statsStep, hs]; ring
      · rw [h4]; simp [statsStep, hs]; ring
      · rw [h5]; simp [statsStep, hs]
      · rw [h6]; simp [statsStep, hs]
      · rw [h7]; simp [statsStep, hs]
    · refine ⟨?_, ?_, ?_, ?_, ?_, ?_, ?_⟩
      · rw [h1]; simp [statsStep, hs]
      · rw [h2]; simp [statsStep, hs]; ring
      · rw [h3]; simp [statsStep, hs]; ring
      · rw [h4]; simp [statsStep, hs]; ring
      · rw [h5]; simp [statsStep, hs]
      · rw [h6]; simp [statsStep, hs]
      · rw [h7]; simp [statsStep, hs]; ring

/-- The grand-aggregation shape of one computed `IntegrityStats`: counts
are sums of the per-row counts; the rows with `valid_stats` are exactly
the rows of the groups with at-or-above-threshold sizes; the grand
median is the `u64`-truncated median across exactly those groups' medians
and the grand std-dev the median across their std-devs; both are zero
when no group has valid stats. -/
def grandAggregatesOk (files : List FileEntry) (t : Nat) (sqrtFn : ℚ → ℚ)
    (stats : IntegrityStats) : Prop :=
  stats.grand_total = (stats.rows.map (fun r => r.total)).sum
  ∧ stats.grand_empty = (stats.rows.map (fun r => r.empty)).sum
  ∧ stats.grand_bad = (stats.rows.map (fun r => r.bad)).sum
  ∧ stats.rows.filter (fun r => r.valid_stats)
      = ((sortedNames files).filter (fun n =>
          !(sortedSizes (groupOf files n) t).isEmpty)).map (rowOf files t sqrtFn)
  ∧ ((sortedNames files).filter (fun n => !(sortedSizes (groupOf files n) t).isEmpty) ≠ [] →
      stats.grand_median = f64ToU64 (median_spec
        ↑(((sortedNames files).filter (fun n =>
            !(sortedSizes (groupOf files n) t).isEmpty)).map (groupMedian files t)))
      ∧ stats.grand_std_dev = median_spec
        ↑(((sortedNames files).filter (fun n =>
            !(sortedSizes (groupOf files n) t).isEmpty)).map (fun n =>
              sqrtFn (varianceOfSizes (sortedSizes (groupOf files n) t)))))
  ∧ ((sortedNames files).filter (fun n => !(sortedSizes (groupOf files n) t).isEmpty) = [] →
      stats.grand_median = 0 ∧ stats.grand_std_dev = 0)

lemma medianOfSorted_insertionSort_eq (l : List ℚ) :
    medianOfSorted (List.insertionSort (· ≤ ·) l) = median_spec (↑l : Multiset ℚ) := by
  rw [insertionSort_eq_multiset_sort]; rfl

/-- C7 (amended). For every computed `IntegrityStats`, the grand counts
are the sums of the per-group counts, the grand std-dev is the median
across exactly the valid groups' std-devs, and the grand median is the
`u64` truncation of the median across exactly the valid groups' medians
(zero for both when no group has valid stats). -/
theorem C7_grand_from_groups (files : List FileEntry) (t : Nat) (sqrtFn : ℚ → ℚ) :
    (calculate_integrity_stats files t sqrtFn).elim True
      (grandAggregatesOk files t sqrtFn) := by
  by_cases hne : files.isEmpty
  · simp [calculate_integrity_stats, hne]
  · rw [Bool.not_eq_true] at hne
    rcases statsFold_fields files t sqrtFn (sortedNames files)
      ⟨[], 0, 0, 0, u64MAX, 0, [], [], 0⟩ with ⟨h1, h2, h3, h4, h5, h6, h7⟩
    simp only [calculate_integrity_stats, hne, Bool.false_eq_true, if_false, Option.elim]
    unfold grandAggregatesOk
    simp only []
    rw [h1, h2, h3, h4, h5, h6, h7]
    simp only [List.nil_append, Nat.zero_add, List.map_map]
    refine ⟨?_, ?_, ?_, ?_, ?_, ?_⟩
    · congr 1
      apply List.map_congr_left
      intro n _
      exact (rowOf_total files t sqrtFn n).symm
    · congr 1
      apply List.map_congr_left
      intro n _
      exact (rowOf_empty files t sqrtFn n).symm
    · congr 1
      apply List.map_congr_left
      intro n _
      exact (rowOf_bad files t sqrtFn n).symm
    · rw [List.filter_map]
      congr 1
      apply List.filter_congr
      intro n _
      simp [Function.comp, rowOf_valid_stats]
    · intro hmed
      have hpos : 0 < ((sortedNames files).filter (fun n =>
          !(sortedSizes (groupOf files n) t).isEmpty)).length :=
        List.length_pos.mpr hmed
      rw [if_pos (by simpa using hpos)]
      constructor
      · simp only []
        rw [← medianOfSorted_insertionSort_eq]
        congr 1
        have hfun : (fun n => medianOfSorted (sortedSizes (groupOf files n) t))
            = groupMedian files t := rfl
        rw [hfun]
        have hlen : (List.insertionSort (· ≤ ·) (((sortedNames files).filter (fun n =>
            !(sortedSizes (groupOf files n) t).isEmpty)).map (groupMedian files t))).length
            = ((sortedNames files).filter (fun n =>
                !(sortedSizes (groupOf files n) t).isEmpty)).length := by
          rw [(List.perm_insertionSort _ _).length_eq, List.length_map]
        simp only [medianOfSorted, hlen]
      · simp only []
        rw [← medianOfSorted_insertionSort_eq]
        have hlen : (List.insertionSort (· ≤ ·) (((sortedNames files).filter (fun n =>
            !(sortedSizes (groupOf files n) t).isEmpty)).map (fun n =>
              sqrtFn (varianceOfSizes (sortedSizes (groupOf files n) t))))).length
            = ((sortedNames files).filter (fun n =>
                !(sortedSizes (groupOf files n) t).isEmpty)).length := by
          rw [(List.perm_insertionSort _ _).length_eq, List.length_map]
        simp only [medianOfSorted, hlen]
    · intro hmed
      rw [hmed]
      simp

/-- Two single-record filename groups with sizes 1 and 2: their medians
are 1 and 2, whose median is 3/2 — which the stored `u64` grand median
truncates. -/
def cexStatsFiles : List FileEntry :=
  [⟨"a.zip", 1, true, none, 0, "d"⟩, ⟨"b.zip", 2, true, none, 0, "d"⟩]

/-- C7 counterexample: on `cexStatsFiles` the claim's equality fails as
stated — the stored grand median is the integer 1 while the median taken
across the per-group medians is 3/2. -/
theorem C7_grand_median_exact_equality_cex :
    (calculate_integrity_stats cexStatsFiles 0 id).map (fun s => (s.grand_median : ℚ)) = some 1
    ∧ median_spec ↑[groupMedian cexStatsFiles 0 "a.zip", groupMedian cexStatsFiles 0 "b.zip"]
      = 3 / 2
    ∧ (1 : ℚ) ≠ 3 / 2 := by
  have h1 : strLe "a.zip" "b.zip" := by decide
  have hsn : sortedNames
      [⟨"a.zip", 1, true, none, 0, "d"⟩, ⟨"b.zip", 2, true, none, 0, "d"⟩]
      = ["a.zip", "b.zip"] := by
    norm_num [sortedNames, List.insertionSort, List.orderedInsert, h1,
      List.dedup_cons_of_not_mem, List.dedup_cons_of_mem]
  refine ⟨?_, ?_, by norm_num⟩
  · simp only [cexStatsFiles]
    norm_num [calculate_integrity_stats, hsn, statsStep, rowOf, groupOf,
      sortedSizes, medianOfSorted, meanOfSizes, varianceOfSizes, f64ToU64, u64MAX,
      List.insertionSort, List.orderedInsert, List.filter_cons, List.filter_nil]
  · have hg1 : groupMedian cexStatsFiles 0 "a.zip" = 1 := by
      simp only [cexStatsFiles]
      norm_num [groupMedian, groupOf, sortedSizes, medianOfSorted,
        List.insertionSort, List.orderedInsert, List.filter_cons, List.filter_nil]
    have hg2 : groupMedian cexStatsFiles 0 "b.zip" = 2 := by
      simp only [cexStatsFiles]
      norm_num [groupMedian, groupOf, sortedSizes, medianOfSorted,
        List.insertionSort, List.orderedInsert, List.filter_cons, List.filter_nil]
    rw [hg1, hg2, ← medianOfSorted_insertionSort_eq]
    norm_num [medianOfSorted, List.insertionSort, List.orderedInsert]

/-- C7 witness: the amended aggregation shape instantiated on the
six-record example set at threshold 1000. -/
theorem C7_grand_from_groups_witness :
    (calculate_integrity_stats exampleFilesB 1000 id).elim True
      (grandAggregatesOk exampleFilesB 1000 id) :=
  C7_grand_from_groups exampleFilesB 1000 id

/-- A single October 2024 record for the clock-dependence example. -/
def cexRankFiles : List FileEntry :=
  [⟨"data.zip", 5000, true, none, 0, "Archive_Beam_B_2024-10-01"⟩]

/-- C8 counterexample: `calculate_monthly_rankings` is not independent of
when it runs — its internal `Local::now().date_naive()` read (the
explicit `today` parameter of the embedding) changes the output. On
identical inputs, running with today = 2024-10-07 yields 5 expected
weekdays for October, and with today = 2024-10-08 yields 6, so the two
MonthlyMetrics lists differ. -/
theorem C8_rankings_depend_on_clock_cex :
    (calculate_monthly_rankings cexRankFiles none none "B"
        (NaiveDate.mk 2024 10 1).toRD (NaiveDate.mk 2024 10 31).toRD 1000
        (NaiveDate.mk 2024 10 7).toRD).months.map (fun m => m.expected_weekdays) = [5]
    ∧ (calculate_monthly_rankings cexRankFiles none none "B"
        (NaiveDate.mk 2024 10 1).toRD (NaiveDate.mk 2024 10 31).toRD 1000
        (NaiveDate.mk 2024 10 8).toRD).months.map (fun m => m.expected_weekdays) = [6]
    ∧ calculate_monthly_rankings cexRankFiles none none "B"
        (NaiveDate.mk 2024 10 1).toRD (NaiveDate.mk 2024 10 31).toRD 1000
        (NaiveDate.mk 2024 10 7).toRD
      ≠ calculate_monthly_rankings cexRankFiles none none "B"
        (NaiveDate.mk 2024 10 1).toRD (NaiveDate.mk 2024 10 31).toRD 1000
        (NaiveDate.mk 2024 10 8).toRD := by
  refine ⟨by decide, by decide, ?_⟩
  intro h
  have hmap := congrArg (fun r : MonthlyRankingReport =>
    r.months.map (fun m => m.expected_weekdays)) h
  simp only [] at hmap
  rw [(by decide : (calculate_monthly_rankings cexRankFiles none none "B"
      (NaiveDate.mk 2024 10 1).toRD (NaiveDate.mk 2024 10 31).toRD 1000
      (NaiveDate.mk 2024 10 7).toRD).months.map (fun m => m.expected_weekdays) = [5]),
    (by decide : (calculate_monthly_rankings cexRankFiles none none "B"
      (NaiveDate.mk 2024 10 1).toRD (NaiveDate.mk 2024 10 31).toRD 1000
      (NaiveDate.mk 2024 10 8).toRD).months.map (fun m => m.expected_weekdays) = [6])] at hmap
  exact absurd hmap (by decide)

/-- C8 (amended). The Monthly Health Scorer is deterministic in its
explicit inputs together with the clock-read "today": two invocations
with equal record sets, reports, line, range, threshold and the same
clock date produce identical reports (runs on different dates may
differ, as the counterexample shows). -/
theorem C8_rankings_deterministic_given_today
    (files₁ files₂ : List FileEntry) (gap₁ gap₂ : Option GapReport)
    (anomaly₁ anomaly₂ : Option AnomalyReport) (line₁ line₂ : String)
    (s₁ s₂ e₁ e₂ t₁ t₂ today₁ today₂ : Nat)
    (hf : files₁ = files₂) (hg : gap₁ = gap₂) (ha : anomaly₁ = anomaly₂)
    (hl : line₁ = line₂) (hs : s₁ = s₂) (he : e₁ = e₂) (ht : t₁ = t₂)
    (hd : today₁ = today₂) :
    calculate_monthly_rankings files₁ gap₁ anomaly₁ line₁ s₁ e₁ t₁ today₁
      = calculate_monthly_rankings files₂ gap₂ anomaly₂ line₂ s₂ e₂ t₂ today₂ := by
  subst hf; subst hg; subst ha; subst hl; subst hs; subst he; subst ht; subst hd
  rfl

/-- C8 witness: the determinism theorem applied at a concrete input. -/
theorem C8_rankings_deterministic_given_today_witness :
    calculate_monthly_rankings cexRankFiles none none "B"
        (NaiveDate.mk 2024 10 1).toRD (NaiveDate.mk 2024 10 31).toRD 1000
        (NaiveDate.mk 2024 10 7).toRD
      = calculate_monthly_rankings cexRankFiles none none "B"
        (NaiveDate.mk 2024 10 1).toRD (NaiveDate.mk 2024 10 31).toRD 1000
        (NaiveDate.mk 2024 10 7).toRD :=
  C8_rankings_deterministic_given_today cexRankFiles cexRankFiles none none none none
    "B" "B" (NaiveDate.mk 2024 10 1).toRD (NaiveDate.mk 2024 10 1).toRD
    (NaiveDate.mk 2024 10 31).toRD (NaiveDate.mk 2024 10 31).toRD 1000 1000
    (NaiveDate.mk 2024 10 7).toRD (NaiveDate.mk 2024 10 7).toRD
    rfl rfl rfl rfl rfl rfl rfl rfl

/-! ## Helper lemmas: the calendar -/

lemma daysInMonth_pos (y m : Nat) : 1 ≤ daysInMonth y m := by
  unfold daysInMonth
  split
  · split <;> norm_num
  · split <;> norm_num

lemma daysBeforeMonth_succ (y m : Nat) (hm : 1 ≤ m) :
    daysBeforeMonth y (m + 1) = daysBeforeMonth y m + daysInMonth y m := by
  unfold daysBeforeMonth
  have h1 : m + 1 - 1 = (m - 1) + 1 := by omega
  rw [h1, Finset.sum_range_succ]
  congr 2
  omega

lemma daysBeforeMonth_mono (y : Nat) {m₁ m₂ : Nat} (h : m₁ ≤ m₂) :
    daysBeforeMonth y m₁ ≤ daysBeforeMonth y m₂ := by
  unfold daysBeforeMonth
  exact Finset.sum_le_sum_of_subset (Finset.range_subset.mpr (by omega))

lemma daysBeforeMonth_year (y : Nat) :
    daysBeforeMonth y 13 = 365 + (if isLeapYear y then 1 else 0) := by
  show (∑ i in Finset.range 12, daysInMonth y (i + 1)) = _
  simp only [Finset.sum_range_succ, Finset.sum_range_zero, daysInMonth]
  by_cases h : isLeapYear y <;> simp [h]

lemma daysBeforeYear_succ (y : Nat) :
    daysBeforeYear (y + 1) = daysBeforeYear y + (if isLeapYear y then 366 else 365) := by
  have h4 : (y + 4) / 4 = (y + 3) / 4 + if 4 ∣ (y + 4) then 1 else 0 := Nat.succ_div (y + 3) 4
  have h100 : (y + 100) / 100 = (y + 99) / 100 + if 100 ∣ (y + 100) then 1 else 0 :=
    Nat.succ_div (y + 99) 100
  have h400 : (y + 400) / 400 = (y + 399) / 400 + if 400 ∣ (y + 400) then 1 else 0 :=
    Nat.succ_div (y + 399) 400
  have hb : (y + 99) / 100 ≤ 365 * y + (y + 3) / 4 := by
    have : (y + 99) / 100 ≤ y + 99 := Nat.div_le_self _ _
    omega
  have hleap : isLeapYear y = true ↔ ((4 ∣ y ∧ ¬ 100 ∣ y) ∨ 400 ∣ y) := by
    unfold isLeapYear
    simp only [Bool.or_eq_true, Bool.and_eq_true, beq_iff_eq, bne_iff_ne, Ne]
    constructor
    · rintro (⟨ha, hb2⟩ | hc)
      · exact Or.inl ⟨Nat.dvd_of_mod_eq_zero ha, fun hd => hb2 (Nat.eq_zero_of_dvd_of_lt hd
          (by omega) |> fun _ => Nat.mod_eq_zero_of_dvd hd)⟩
      · exact Or.inr (Nat.dvd_of_mod_eq_zero hc)
    · rintro (⟨ha, hb2⟩ | hc)
      · exact Or.inl ⟨Nat.mod_eq_zero_of_dvd ha, fun hd => hb2 (Nat.dvd_of_mod_eq_zero hd)⟩
      · exact Or.inr (Nat.mod_eq_zero_of_dvd hc)
  unfold daysBeforeYear
  have e4 : (y + 1 + 3) = y + 4 := by omega
  have e100 : (y + 1 + 99) = y + 100 := by omega
  have e400 : (y + 1 + 399) = y + 400 := by omega
  rw [e4, e100, e400, h4, h100, h400]
  have imp1 : 400 ∣ (y + 400) → 100 ∣ (y + 100) := by
    intro h; rcases h with ⟨k, hk⟩; exact ⟨4 * k - 3, by omega⟩
  have imp2 : 100 ∣ (y + 100) → 4 ∣ (y + 4) := by
    intro h; rcases h with ⟨k, hk⟩; exact ⟨25 * k - 24, by omega⟩
  have d4 : 4 ∣ (y + 4) ↔ 4 ∣ y := by constructor <;> (intro h; omega)
  have d100 : 100 ∣ (y + 100) ↔ 100 ∣ y := by constructor <;> (intro h; omega)
  have d400 : 400 ∣ (y + 400) ↔ 400 ∣ y := by constructor <;> (intro h; omega)
  by_cases hl : isLeapYear y = true
  · rcases hleap.mp hl with ⟨ha, hnb⟩ | hc
    · rw [if_pos hl, if_pos (d4.mpr ha), if_neg (fun h => hnb (d100.mp h))]
      by_cases h4c : 400 ∣ (y + 400)
      · exact absurd (imp1 h4c) (fun h => hnb (d100.mp h))
      · rw [if_neg h4c]; omega
    · have h1 : 100 ∣ y := dvd_trans (by norm_num) hc
      rw [if_pos hl, if_pos (d4.mpr (dvd_trans (by norm_num) hc)),
        if_pos (d100.mpr h1), if_pos (d400.mpr hc)]
      omega
  · rw [if_neg hl]
    have hy100of4 : 4 ∣ y → 100 ∣ y := by
      intro h4y
      by_contra hny
      exact hl (hleap.mpr (Or.inl ⟨h4y, hny⟩))
    have hy400 : ¬ 400 ∣ y := fun h => hl (hleap.mpr (Or.inr h))
    by_cases hy4 : 4 ∣ y
    · have hy100 : 100 ∣ y := hy100of4 hy4
      rw [if_pos (d4.mpr hy4), if_pos (d100.mpr hy100), if_neg (fun h => hy400 (d400.mp h))]
      omega
    · rw [if_neg (fun h => hy4 (d4.mp h))]
      have hn100 : ¬ 100 ∣ (y + 100) := fun h => hy4 (d4.mp (imp2 h))
      have hn400 : ¬ 400 ∣ (y + 400) := fun h => hn100 (imp1 h)
      rw [if_neg hn100, if_neg hn400]
      omega

lemma daysBeforeYear_eq_add_month13 (y : Nat) :
    daysBeforeYear (y + 1) = daysBeforeYear y + daysBeforeMonth y 13 - 1 + 1 := by
  rw [daysBeforeYear_succ, daysBeforeMonth_year]
  by_cases h : isLeapYear y <;> simp [h]

lemma NaiveDate.succ_toRD {dt : NaiveDate} (h : dt.Valid) :
    dt.succ.toRD = dt.toRD + 1 := by
  rcases h with ⟨hm1, hm2, hd1, hd2⟩
  unfold NaiveDate.succ NaiveDate.toRD
  by_cases hday : dt.day < daysInMonth dt.year dt.month
  · rw [if_pos hday]
    simp only []
    omega
  · rw [if_neg hday]
    have hde : dt.day = daysInMonth dt.year dt.month := by omega
    by_cases hmon : dt.month < 12
    · rw [if_pos hmon]
      simp only []
      rw [daysBeforeMonth_succ dt.year dt.month hm1]
      have := daysInMonth_pos dt.year dt.month
      omega
    · rw [if_neg hmon]
      simp only []
      have hm12 : dt.month = 12 := by omega
      have h13 : daysBeforeMonth dt.year 13
          = daysBeforeMonth dt.year 12 + daysInMonth dt.year 12 :=
        daysBeforeMonth_succ dt.year 12 (by norm_num)
      have hy := daysBeforeYear_eq_add_month13 dt.year
      have hpos := daysInMonth_pos dt.year 12
      have hBM1 : daysBeforeMonth (dt.year + 1) 1 = 0 := by
        simp [daysBeforeMonth]
      rw [hm12] at hde ⊢
      rw [hBM1]
      omega

lemma NaiveDate.succ_valid {dt : NaiveDate} (h : dt.Valid) : dt.succ.Valid := by
  rcases h with ⟨hm1, hm2, hd1, hd2⟩
  unfold NaiveDate.succ NaiveDate.Valid
  by_cases hday : dt.day < daysInMonth dt.year dt.month
  · rw [if_pos hday]
    exact ⟨hm1, hm2, Nat.le_add_left 1 dt.day, hday⟩
  · rw [if_neg hday]
    by_cases hmon : dt.month < 12
    · rw [if_pos hmon]
      exact ⟨Nat.le_add_left 1 dt.month, hmon, le_refl 1, daysInMonth_pos _ _⟩
    · rw [if_neg hmon]
      exact ⟨le_refl 1, (by norm_num : (1 : Nat) ≤ 12), le_refl 1, daysInMonth_pos _ _⟩

/-- Iterated `NaiveDate::succ_opt`: the day `n` days after `dt`. -/
def dateAddDays (dt : NaiveDate) : Nat → NaiveDate
  | 0 => dt
  | n + 1 => (dateAddDays dt n).succ

lemma dateAddDays_valid {dt : NaiveDate} (h : dt.Valid) (n : Nat) :
    (dateAddDays dt n).Valid := by
  induction n with
  | zero => exact h
  | succ n ih => exact NaiveDate.succ_valid ih

lemma dateAddDays_toRD {dt : NaiveDate} (h : dt.Valid) (n : Nat) :
    (dateAddDays dt n).toRD = dt.toRD + n := by
  induction n with
  | zero => rfl
  | succ n ih =>
    show (dateAddDays dt n).succ.toRD = _
    rw [NaiveDate.succ_toRD (dateAddDays_valid h n), ih]
    omega

lemma dateAddDays_succ_comm (dt : NaiveDate) (n : Nat) :
    dateAddDays dt (n + 1) = dateAddDays dt.succ n := by
  induction n with
  | zero => rfl
  | succ n ih =>
    show (dateAddDays dt (n + 1)).succ = (dateAddDays dt.succ n).succ
    rw [ih]

lemma toRD_lt_of_lex {a b : NaiveDate} (ha : a.Valid) (hb : b.Valid)
    (h : a.year < b.year ∨ (a.year = b.year ∧ a.month < b.month)
      ∨ (a.year = b.year ∧ a.month = b.month ∧ a.day < b.day)) :
    a.toRD < b.toRD := by
  rcases ha with ⟨ham1, ham2, had1, had2⟩
  rcases hb with ⟨hbm1, hbm2, hbd1, hbd2⟩
  have hy_mono : ∀ y₁ y₂ : Nat, y₁ ≤ y₂ → daysBeforeYear y₁ ≤ daysBeforeYear y₂ := by
    intro y₁ y₂ hle
    induction y₂ with
    | zero =>
      have h0 : y₁ = 0 := by omega
      rw [h0]
    | succ k ih =>
      rcases Nat.lt_or_ge y₁ (k + 1) with hlt | hge
      · have hik := ih (by omega)
        rw [daysBeforeYear_succ k]
        split <;> omega
      · have heq : y₁ = k + 1 := by omega
        rw [heq]
  rcases h with hy | ⟨hye, hm⟩ | ⟨hye, hme, hd⟩
  · have hbound : a.toRD < daysBeforeYear (a.year + 1) := by
      unfold NaiveDate.toRD
      have h1 : daysBeforeMonth a.year (a.month + 1)
          = daysBeforeMonth a.year a.month + daysInMonth a.year a.month :=
        daysBeforeMonth_succ a.year a.month ham1
      have h2 : daysBeforeMonth a.year (a.month + 1) ≤ daysBeforeMonth a.year 13 :=
        daysBeforeMonth_mono a.year (by omega)
      have h3 := daysBeforeYear_eq_add_month13 a.year
      omega
    have h4 : daysBeforeYear (a.year + 1) ≤ daysBeforeYear b.year := hy_mono _ _ (by omega)
    have h5 : daysBeforeYear b.year ≤ b.toRD := by
      unfold NaiveDate.toRD; omega
    omega
  · unfold NaiveDate.toRD
    rw [← hye]
    have h1 : daysBeforeMonth a.year (a.month + 1)
        = daysBeforeMonth a.year a.month + daysInMonth a.year a.month :=
      daysBeforeMonth_succ a.year a.month ham1
    have h2 : daysBeforeMonth a.year (a.month + 1) ≤ daysBeforeMonth a.year b.month :=
      daysBeforeMonth_mono a.year (by omega)
    omega
  · unfold NaiveDate.toRD
    rw [← hye, ← hme]
    omega

lemma toRD_inj_of_valid {a b : NaiveDate} (ha : a.Valid) (hb : b.Valid)
    (h : a.toRD = b.toRD) : a = b := by
  rcases Nat.lt_trichotomy a.year b.year with hy | hy | hy
  · exact absurd h (Nat.ne_of_lt (toRD_lt_of_lex ha hb (Or.inl hy)))
  · rcases Nat.lt_trichotomy a.month b.month with hm | hm | hm
    · exact absurd h (Nat.ne_of_lt (toRD_lt_of_lex ha hb (Or.inr (Or.inl ⟨hy, hm⟩))))
    · rcases Nat.lt_trichotomy a.day b.day with hd | hd | hd
      · exact absurd h (Nat.ne_of_lt (toRD_lt_of_lex ha hb (Or.inr (Or.inr ⟨hy, hm, hd⟩))))
      · rcases a with ⟨ay, am, ad⟩
        rcases b with ⟨by_, bm, bd⟩
        simp only [] at hy hm hd
        rw [hy, hm, hd]
      · exact absurd h.symm (Nat.ne_of_lt (toRD_lt_of_lex hb ha
          (Or.inr (Or.inr ⟨hy.symm, hm.symm, hd⟩))))
    · exact absurd h.symm (Nat.ne_of_lt (toRD_lt_of_lex hb ha (Or.inr (Or.inl ⟨hy.symm, hm⟩))))
  · exact absurd h.symm (Nat.ne_of_lt (toRD_lt_of_lex hb ha (Or.inl hy)))

/-! ## Helper lemmas: the gap walk -/

lemma gapWalk_mem (ex : List NaiveDate) (c : NaiveDate) (n : Nat) (d : NaiveDate) :
    d ∈ (gapWalk ex c n).1 ↔
      ∃ i < n, d = dateAddDays c i ∧ d ∉ ex ∧ weekdayFromMonday d.toRD ≤ 5 := by
  induction n generalizing c with
  | zero => simp [gapWalk]
  | succ n ih =>
    have hstep : gapWalk ex c (n + 1)
        = (let rest := gapWalk ex c.succ n;
          if c ∈ ex then rest
          else if weekdayFromMonday c.toRD ≤ 5 then (c :: rest.1, rest.2)
          else (rest.1, rest.2 + 1)) := rfl
    rw [hstep]
    have hshift : (∃ i < n, d = dateAddDays c.succ i ∧ d ∉ ex
          ∧ weekdayFromMonday d.toRD ≤ 5)
        ↔ (∃ i, (i < n + 1 ∧ 0 < i) ∧ d = dateAddDays c i ∧ d ∉ ex
          ∧ weekdayFromMonday d.toRD ≤ 5) := by
      constructor
      · rintro ⟨i, hi, hd, hnx, hw⟩
        exact ⟨i + 1, ⟨by omega, by omega⟩, by rw [dateAddDays_succ_comm]; exact hd, hnx, hw⟩
      · rintro ⟨i, ⟨hi1, hi2⟩, hd, hnx, hw⟩
        rcases Nat.exists_eq_add_of_lt hi2 with ⟨j, hj⟩
        refine ⟨i - 1, by omega, ?_, hnx, hw⟩
        have : i = (i - 1) + 1 := by omega
        rw [this] at hd
        rw [dateAddDays_succ_comm] at hd
        exact hd
    by_cases hc : c ∈ ex
    · simp only [hc, if_true]
      rw [ih c.succ, hshift]
      constructor
      · rintro ⟨i, hi, hd, hnx, hw⟩
        exact ⟨i, hi.1, hd, hnx, hw⟩
      · rintro ⟨i, hi, hd, hnx, hw⟩
        refine ⟨i, ⟨hi, ?_⟩, hd, hnx, hw⟩
        by_contra h0
        have hi0 : i = 0 := by omega
        rw [hi0] at hd
        exact hnx (hd ▸ hc)
    · simp only [hc, if_false]
      by_cases hw : weekdayFromMonday c.toRD ≤ 5
      · simp only [hw, if_true, List.mem_cons]
        rw [ih c.succ, hshift]
        constructor
        · rintro (hdc | ⟨i, hi, hd, hnx, hw2⟩)
          · exact ⟨0, by omega, hdc, by rw [hdc]; exact hc, by rw [hdc]; exact hw⟩
          · exact ⟨i, hi.1, hd, hnx, hw2⟩
        · rintro ⟨i, hi, hd, hnx, hw2⟩
          by_cases hi0 : i = 0
          · rw [hi0] at hd
            exact Or.inl hd
          · exact Or.inr ⟨i, ⟨hi, by omega⟩, hd, hnx, hw2⟩
      · simp only [hw, if_false]
        rw [ih c.succ, hshift]
        constructor
        · rintro ⟨i, hi, hd, hnx, hw2⟩
          exact ⟨i, hi.1, hd, hnx, hw2⟩
        · rintro ⟨i, hi, hd, hnx, hw2⟩
          refine ⟨i, ⟨hi, ?_⟩, hd, hnx, hw2⟩
          by_contra h0
          have hi0 : i = 0 := by omega
          rw [hi0] at hd
          rw [hd] at hw2
          exact hw hw2

lemma gapWalk_snd (ex : List NaiveDate) (c : NaiveDate) (n : Nat) :
    (gapWalk ex c n).2 = (List.range n).countP (fun i =>
      decide (dateAddDays c i ∉ ex
        ∧ ¬ weekdayFromMonday (dateAddDays c i).toRD ≤ 5)) := by
  induction n generalizing c with
  | zero => simp [gapWalk]
  | succ n ih =>
    have hstep : gapWalk ex c (n + 1)
        = (let rest := gapWalk ex c.succ n;
          if c ∈ ex then rest
          else if weekdayFromMonday c.toRD ≤ 5 then (c :: rest.1, rest.2)
          else (rest.1, rest.2 + 1)) := rfl
    rw [hstep, List.range_succ_eq_map, List.countP_cons, List.countP_map]
    have hcomp : ((fun i => decide (dateAddDays c i ∉ ex
          ∧ ¬ weekdayFromMonday (dateAddDays c i).toRD ≤ 5)) ∘ Nat.succ)
        = (fun i => decide (dateAddDays c.succ i ∉ ex
          ∧ ¬ weekdayFromMonday (dateAddDays c.succ i).toRD ≤ 5)) := by
      funext i
      simp only [Function.comp]
      rw [show Nat.succ i = i + 1 from rfl, dateAddDays_succ_comm]
    rw [hcomp, ← ih c.succ]
    have h0 : dateAddDays c 0 = c := rfl
    by_cases hc : c ∈ ex
    · simp [hc, h0]
    · by_cases hw : weekdayFromMonday c.toRD ≤ 5
      · simp [hc, hw, h0]
      · simp [hc, hw, h0]

lemma gapWalk_sublist (ex : List NaiveDate) (c : NaiveDate) (n : Nat) :
    (gapWalk ex c n).1.Sublist ((List.range n).map (dateAddDays c)) := by
  induction n generalizing c with
  | zero => simp [gapWalk]
  | succ n ih =>
    have hstep : gapWalk ex c (n + 1)
        = (let rest := gapWalk ex c.succ n;
          if c ∈ ex then rest
          else if weekdayFromMonday c.toRD ≤ 5 then (c :: rest.1, rest.2)
          else (rest.1, rest.2 + 1)) := rfl
    have hrange : (List.range (n + 1)).map (dateAddDays c)
        = c :: (List.range n).map (dateAddDays c.succ) := by
      rw [List.range_succ_eq_map, List.map_cons, List.map_map]
      congr 1
      apply List.map_congr_left
      intro i _
      simp only [Function.comp]
      rw [show Nat.succ i = i + 1 from rfl, dateAddDays_succ_comm]
    rw [hstep, hrange]
    by_cases hc : c ∈ ex
    · simp only [hc, if_true]
      exact (ih c.succ).cons c
    · by_cases hw : weekdayFromMonday c.toRD ≤ 5
      · simp only [hc, hw, if_true, if_false]
        exact (ih c.succ).cons₂ c
      · simp only [hc, hw, if_false]
        exact (ih c.succ).cons c

lemma gapWalk_sorted (ex : List NaiveDate) {c : NaiveDate} (hc : c.Valid) (n : Nat) :
    (gapWalk ex c n).1.Pairwise (fun x y => x.toRD < y.toRD) := by
  have hmap : ((List.range n).map (dateAddDays c)).Pairwise (fun x y => x.toRD < y.toRD) := by
    refine List.Pairwise.map (dateAddDays c) ?_ (List.pairwise_lt_range n)
    intro i j hij
    show (dateAddDays c i).toRD < (dateAddDays c j).toRD
    rw [dateAddDays_toRD hc, dateAddDays_toRD hc]
    omega
  exact hmap.sublist (gapWalk_sublist ex c n)

/-! ## Helper lemmas: parsing and sortedness -/

lemma parseYMD_valid {cs : List Char} {dt : NaiveDate} (h : parseYMD cs = some dt) :
    dt.Valid := by
  unfold parseYMD at h
  split at h
  · split at h
    · split at h
      · dsimp only at h
        split at h
        · rename_i hcond
          injection h with h
          subst h
          simp only [Bool.and_eq_true, decide_eq_true_eq] at hcond
          exact ⟨hcond.1.1.1, hcond.1.1.2, hcond.1.2, hcond.2⟩
        · exact absurd h (by simp)
      · exact absurd h (by simp)
    · exact absurd h (by simp)
  · exact absurd h (by simp)

lemma extract_date_valid {p line_id : String} {dt : NaiveDate}
    (h : extract_date_from_dir p line_id = some dt) : dt.Valid := by
  unfold extract_date_from_dir at h
  dsimp only at h
  split at h
  · split at h
    · exact parseYMD_valid h
    · exact absurd h (by simp)
  · exact absurd h (by simp)

lemma extractDates_valid {files : List FileEntry} {line_id : String} :
    ∀ d ∈ extractDates files line_id, d.Valid := by
  intro d hd
  rcases List.mem_filterMap.mp hd with ⟨f, _, hf⟩
  exact extract_date_valid hf

instance : IsTotal NaiveDate dateLe := ⟨fun a b => le_total a.toRD b.toRD⟩

instance : IsTrans NaiveDate dateLe := ⟨fun _ _ _ h1 h2 => le_trans h1 h2⟩

lemma dedupSorted_sorted : ∀ {l : List NaiveDate},
    l.Sorted dateLe → (dedupSorted l).Sorted dateLe := by
  intro l
  induction l with
  | nil => intro _; simp [dedupSorted]
  | cons a rest ih =>
    intro hs
    cases rest with
    | nil => simp [dedupSorted]
    | cons b rest2 =>
      rcases List.sorted_cons.mp hs with ⟨hall, hrest⟩
      unfold dedupSorted
      split
      · exact ih hrest
      · rw [List.sorted_cons]
        refine ⟨?_, ih hrest⟩
        intro x hx
        exact hall x ((mem_dedupSorted _ x).mp hx)

lemma sorted_getLast_max : ∀ {l : List NaiveDate}, l.Sorted dateLe → ∀ hne : l ≠ [],
    ∀ d ∈ l, d.toRD ≤ (l.getLast hne).toRD := by
  intro l
  induction l with
  | nil => intro _ hne; exact absurd rfl hne
  | cons a rest ih =>
    intro hs hne d hd
    rcases List.sorted_cons.mp hs with ⟨hall, hrest⟩
    cases rest with
    | nil =>
      rcases List.mem_singleton.mp hd with h
      rw [h]
      exact le_refl _
    | cons b rest2 =>
      rw [List.getLast_cons (List.cons_ne_nil b rest2)]
      rcases List.mem_cons.mp hd with h | h
      · rw [h]
        exact hall _ (List.getLast_mem (List.cons_ne_nil b rest2))
      · exact ih hrest (List.cons_ne_nil b rest2) d h

/-- The gap-walk shape C3 asserts of `find_gaps` on an input with at
least one extracted date: the range is the earliest-to-latest observed
dates; an absent day strictly inside the range is a missing weekday
exactly when its Monday-based weekday number is at most 5; absent
weekend days are counted one-for-one in `skipped_weekends`; the
missing-weekday list is strictly ascending, Monday–Friday only, absent
from the observed set, and inside `[start, end)`. -/
def findGapsSpec (files : List FileEntry) (line_id : String) : Prop :=
  ((find_gaps files line_id).start_date ∈ extractDates files line_id
    ∧ ∀ d ∈ extractDates files line_id,
        (find_gaps files line_id).start_date.toRD ≤ d.toRD)
  ∧ ((find_gaps files line_id).end_date ∈ extractDates files line_id
    ∧ ∀ d ∈ extractDates files line_id,
        d.toRD ≤ (find_gaps files line_id).end_date.toRD)
  ∧ (∀ d : NaiveDate, d.Valid →
      (find_gaps files line_id).start_date.toRD ≤ d.toRD →
      d.toRD < (find_gaps files line_id).end_date.toRD →
      d ∉ extractDates files line_id →
      (d ∈ (find_gaps files line_id).missing_weekdays ↔ weekdayFromMonday d.toRD ≤ 5))
  ∧ (find_gaps files line_id).skipped_weekends
      = (List.range ((find_gaps files line_id).end_date.toRD
          - (find_gaps files line_id).start_date.toRD)).countP (fun i =>
        decide (dateAddDays (find_gaps files line_id).start_date i
            ∉ extractDates files line_id
          ∧ ¬ weekdayFromMonday
              (dateAddDays (find_gaps files line_id).start_date i).toRD ≤ 5))
  ∧ (find_gaps files line_id).missing_weekdays.Pairwise (fun x y => x.toRD < y.toRD)
  ∧ (∀ d ∈ (find_gaps files line_id).missing_weekdays,
      weekdayFromMonday d.toRD ≤ 5 ∧ d ∉ extractDates files line_id
      ∧ (find_gaps files line_id).start_date.toRD ≤ d.toRD
      ∧ d.toRD < (find_gaps files line_id).end_date.toRD)

/-- C3. On any input with at least one extracted archive date,
`find_gaps` sets `start_date`/`end_date` to the earliest and latest
observed dates, flags exactly the absent weekdays in `[start, end)` as
missing (weekday number Monday = 1 .. Sunday = 7 at most 5), counts the
absent weekend days in `skipped_weekends`, and keeps `missing_weekdays`
ascending and Monday–Friday only. -/
theorem C3_find_gaps_characterization (files : List FileEntry) (line_id : String)
    (hne : extractDates files line_id ≠ []) :
    findGapsSpec files line_id := by
  unfold findGapsSpec
  rcases hd : dedupSorted (List.insertionSort dateLe (extractDates files line_id)) with
    _ | ⟨a, rest⟩
  · exfalso
    have hnil := (dedupSorted_eq_nil_iff _).mp hd
    have hperm := List.perm_insertionSort dateLe (extractDates files line_id)
    rw [hnil] at hperm
    exact hne (List.Perm.nil_eq hperm).symm
  · have hfg : find_gaps files line_id =
        { start_date := a,
          end_date := (a :: rest).getLast (List.cons_ne_nil a rest),
          missing_weekdays := (gapWalk (a :: rest) a
            (((a :: rest).getLast (List.cons_ne_nil a rest)).toRD - a.toRD)).1,
          skipped_weekends := (gapWalk (a :: rest) a
            (((a :: rest).getLast (List.cons_ne_nil a rest)).toRD - a.toRD)).2,
          is_empty := false } := by
      unfold find_gaps
      rw [hd]
    have hmem : ∀ d : NaiveDate, d ∈ (a :: rest) ↔ d ∈ extractDates files line_id := by
      intro d
      rw [← hd, mem_dedupSorted]
      exact (List.perm_insertionSort dateLe (extractDates files line_id)).mem_iff
    have hsorted : (a :: rest).Sorted dateLe := by
      rw [← hd]
      exact dedupSorted_sorted (List.sorted_insertionSort dateLe _)
    have hvalid : ∀ d ∈ (a :: rest), d.Valid := fun d hd2 =>
      extractDates_valid d ((hmem d).mp hd2)
    have ha_valid : a.Valid := hvalid a (List.mem_cons_self a rest)
    have hlast_mem : (a :: rest).getLast (List.cons_ne_nil a rest) ∈ (a :: rest) :=
      List.getLast_mem (List.cons_ne_nil a rest)
    have ha_min : ∀ d ∈ (a :: rest), a.toRD ≤ d.toRD := by
      intro d hd2
      rcases List.mem_cons.mp hd2 with h | h
      · rw [h]
      · exact (List.sorted_cons.mp hsorted).1 d h
    have hlast_max : ∀ d ∈ (a :: rest),
        d.toRD ≤ ((a :: rest).getLast (List.cons_ne_nil a rest)).toRD :=
      sorted_getLast_max hsorted (List.cons_ne_nil a rest)
    have hstart : (find_gaps files line_id).start_date = a := by rw [hfg]
    have hend : (find_gaps files line_id).end_date
        = (a :: rest).getLast (List.cons_ne_nil a rest) := by rw [hfg]
    have hmiss : (find_gaps files line_id).missing_weekdays
        = (gapWalk (a :: rest) a
          (((a :: rest).getLast (List.cons_ne_nil a rest)).toRD - a.toRD)).1 := by rw [hfg]
    have hskip : (find_gaps files line_id).skipped_weekends
        = (gapWalk (a :: rest) a
          (((a :: rest).getLast (List.cons_ne_nil a rest)).toRD - a.toRD)).2 := by rw [hfg]
    rw [hstart, hend, hmiss, hskip]
    refine ⟨⟨(hmem a).mp (List.mem_cons_self a rest), ?_⟩,
      ⟨(hmem _).mp hlast_mem, ?_⟩, ?_, ?_, ?_, ?_⟩
    · intro d hd2
      exact ha_min d ((hmem d).mpr hd2)
    · intro d hd2
      exact hlast_max d ((hmem d).mpr hd2)
    · intro d hdv hd1 hd2 hd3
      have hdi : d = dateAddDays a (d.toRD - a.toRD) := by
        apply toRD_inj_of_valid hdv (dateAddDays_valid ha_valid _)
        rw [dateAddDays_toRD ha_valid]
        omega
      rw [gapWalk_mem]
      constructor
      · rintro ⟨i, _, _, _, hw⟩
        exact hw
      · intro hw
        refine ⟨d.toRD - a.toRD, by omega, hdi, ?_, hw⟩
        intro hmem2
        exact hd3 ((hmem d).mp hmem2)
    · rw [gapWalk_snd]
      apply List.countP_congr
      intro i _
      simp only [decide_eq_true_eq]
      rw [hmem (dateAddDays a i)]
    · exact gapWalk_sorted (a :: rest) ha_valid _
    · intro d hd2
      rcases (gapWalk_mem _ _ _ d).mp hd2 with ⟨i, hi, hdi, hnx, hw⟩
      have hrd : d.toRD = a.toRD + i := by
        rw [hdi, dateAddDays_toRD ha_valid]
      refine ⟨hw, fun hc => hnx ((hmem d).mpr hc), by omega, by omega⟩

/-- The record set of the repository's own weekend-skip test: archives
on Friday 2024-08-02 and Monday 2024-08-05. -/
def exampleGapFiles : List FileEntry :=
  [⟨"dummy.zip", 0, true, none, 0, "Archive_Beam_B_2024-08-02"⟩,
    ⟨"dummy.zip", 0, true, none, 0, "Archive_Beam_B_2024-08-05"⟩]

/-- C3 witness: the characterization instantiated on the Friday-plus-
Monday input (where the two absent days are both weekend days). -/
theorem C3_find_gaps_characterization_witness :
    extractDates exampleGapFiles "B" ≠ [] ∧ findGapsSpec exampleGapFiles "B" :=
  ⟨by decide, C3_find_gaps_characterization exampleGapFiles "B" (by decide)⟩
